import Mathlib

/-!
Verification of the `onenote_importer` MHT-to-flashcard conversion core.

The Python 2 sources under `onenote_importer/` are shallowly embedded here:

* `emaildata/attachment.py` — `Attachment.extract`, `Attachment.decode_filename`
* `emaildata/text.py`       — `Text.decode_content`
* `emaildata/metadata.py`   — `MetaData._address`, `MetaData.set_message`,
  `MetaData.addresses`, `MetaData._receivers`
* `parser.py`               — `Parser.run` (asset extraction, image rewriting,
  table-to-row serialization) and `Parser.__init__`'s root computation

Conventions of the embedding:

* A Python 2 byte string (`str`) is modelled as a Lean `String` whose
  characters are the bytes (a latin-1 view); a Python 2 `unicode` object is
  modelled as a Lean `String` of its code points.  The sum of the two is
  `PyStr`.
* Python exceptions are modelled by `Except PyErr`; an `except` clause is an
  explicit match on the error value.
* Standard-library primitives reached by the sources (`email.header`,
  `email.utils`, `quopri`/`mimetools`, `os.path` in its POSIX form,
  `urlparse`, `mimetypes`) are embedded at the fidelity the verified
  properties exercise; each such definition carries a comment naming the
  primitive it models.
-/

/-- The Python exception kinds reachable in the embedded fragment. -/
inductive PyErr where
  | unicodeDecodeError
  | unicodeEncodeError
  | lookupError
  | typeError
  | attributeError
  | indexError
  | valueError
  deriving Repr, DecidableEq

/-- `True` exactly for the two exception classes caught by
`Attachment.extract`'s `except (UnicodeDecodeError, UnicodeEncodeError)`. -/
def PyErr.isUnicode : PyErr → Bool
  | .unicodeDecodeError => true
  | .unicodeEncodeError => true
  | _ => false

/-- A Python 2 string value: `bytes` models `str` (characters are the bytes,
latin-1 view), `uni` models `unicode`. -/
inductive PyStr where
  | bytes (b : String)
  | uni (s : String)
  deriving Repr, DecidableEq

/-- The whitespace characters stripped by Python 2 `str.strip()`. -/
def pyIsSpace (c : Char) : Bool :=
  c = ' ' || c = '\t' || c = '\n' || c = '\x0d' || c = '\x0b' || c = '\x0c'

/-- Python `s.strip()` (both ends, default whitespace set). -/
def pyStrip (s : String) : String :=
  ⟨((s.data.dropWhile pyIsSpace).reverse.dropWhile pyIsSpace).reverse⟩

/-- Python `s.lstrip()` is not used; `pyStrip` models `.strip()` only. -/
def pyLowerChar (c : Char) : Char :=
  if 'A' ≤ c ∧ c ≤ 'Z' then Char.ofNat (c.toNat + 32) else c

/-- Python 2 `str.lower()`: ASCII-only lowercasing. -/
def pyLower (s : String) : String :=
  ⟨s.data.map pyLowerChar⟩

/-- Python `s.replace(old, new)` for single characters. -/
def pyReplaceChar (s : String) (old new : Char) : String :=
  ⟨s.data.map (fun c => if c = old then new else c)⟩

/-- `True` when every character of the string is an ASCII code point,
i.e. when the Python 2 implicit `ascii` codec accepts it. -/
def pyAllAscii (s : String) : Bool :=
  s.data.all (fun c => c.toNat < 128)

/-- Python 2 implicit coercion of a `str` to `unicode` (the `ascii` codec):
fails with `UnicodeDecodeError` on any byte ≥ 0x80. -/
def pyAsciiDecode (b : String) : Except PyErr String :=
  if pyAllAscii b then .ok b else .error .unicodeDecodeError

/-- Python 2 implicit coercion of a `unicode` to `str` (the `ascii` codec):
fails with `UnicodeEncodeError` on any code point ≥ 0x80. -/
def pyAsciiEncode (s : String) : Except PyErr String :=
  if pyAllAscii s then .ok s else .error .unicodeEncodeError

/-- `cStringIO.StringIO(x)`: byte strings pass through unchanged, `unicode`
objects are coerced through the `ascii` codec. -/
def cstringBytes : PyStr → Except PyErr String
  | .bytes b => .ok b
  | .uni s => pyAsciiEncode s

/-- Value of a hexadecimal digit, if the character is one. -/
def hexVal (c : Char) : Option Nat :=
  if '0' ≤ c ∧ c ≤ '9' then some (c.toNat - '0'.toNat)
  else if 'a' ≤ c ∧ c ≤ 'f' then some (c.toNat - 'a'.toNat + 10)
  else if 'A' ≤ c ∧ c ≤ 'F' then some (c.toNat - 'A'.toNat + 10)
  else none

/-- Python 2 `\w` (word character) for the default `re` locale. -/
def pyIsWordChar (c : Char) : Bool :=
  ('a' ≤ c ∧ c ≤ 'z') || ('A' ≤ c ∧ c ≤ 'Z') || ('0' ≤ c ∧ c ≤ '9') || c = '_'

/-- Python 2 `str.splitlines()`: split on `\n`, `\r` and `\r\n`. -/
def pySplitlinesAux : List Char → List Char → List String
  | [], acc => if acc.isEmpty then [] else [⟨acc.reverse⟩]
  | '\x0d' :: '\n' :: rest, acc => ⟨acc.reverse⟩ :: pySplitlinesAux rest []
  | '\x0d' :: rest, acc => ⟨acc.reverse⟩ :: pySplitlinesAux rest []
  | '\n' :: rest, acc => ⟨acc.reverse⟩ :: pySplitlinesAux rest []
  | c :: rest, acc => pySplitlinesAux rest (c :: acc)

def pySplitlines (s : String) : List String :=
  pySplitlinesAux s.data []

/-- Python `s.split(sep)` for a one-character separator. -/
def splitOnCharAux : List Char → Char → List Char → List String
  | [], _, acc => [⟨acc.reverse⟩]
  | c :: rest, sep, acc =>
    if c = sep then ⟨acc.reverse⟩ :: splitOnCharAux rest sep []
    else splitOnCharAux rest sep (c :: acc)

def pySplitOnChar (s : String) (sep : Char) : List String :=
  splitOnCharAux s.data sep []

/-- Python `s.startswith(pre)`. -/
def pyStartsWith (s pre : String) : Bool :=
  pre.data.isPrefixOf s.data

/-- Python `s.endswith(suf)`. -/
def pyEndsWith (s suf : String) : Bool :=
  suf.data.isSuffixOf s.data

/-! ### UTF-8 codec

Models the Python `utf-8` codec used by `text.decode('utf-8')` /
`text.encode('utf-8')`.  Encoding works on code points; decoding validates
byte sequences (rejecting truncated, overlong and surrogate forms). -/

/-- UTF-8 encoding of a single code point, as byte values. -/
def utf8EncodeCharNat (n : Nat) : List Nat :=
  if n < 0x80 then [n]
  else if n < 0x800 then [0xC0 + n / 64, 0x80 + n % 64]
  else if n < 0x10000 then [0xE0 + n / 4096, 0x80 + (n / 64) % 64, 0x80 + n % 64]
  else [0xF0 + n / 262144, 0x80 + (n / 4096) % 64, 0x80 + (n / 64) % 64, 0x80 + n % 64]

/-- UTF-8 encoding of a list of code points. -/
def utf8EncodeNats (l : List Nat) : List Nat :=
  l.flatMap utf8EncodeCharNat

/-- Decode one UTF-8 sequence from the front of a byte-value list. -/
def utf8DecodeOne : List Nat → Option (Nat × List Nat)
  | [] => none
  | n :: rest =>
    if n < 0x80 then some (n, rest)
    else if n < 0xC2 then none
    else if n < 0xE0 then
      match rest with
      | n1 :: rest' =>
        if 0x80 ≤ n1 ∧ n1 < 0xC0 then some ((n - 0xC0) * 64 + (n1 - 0x80), rest')
        else none
      | [] => none
    else if n < 0xF0 then
      match rest with
      | n1 :: n2 :: rest' =>
        if (0x80 ≤ n1 ∧ n1 < 0xC0) ∧ (0x80 ≤ n2 ∧ n2 < 0xC0) then
          let v := (n - 0xE0) * 4096 + (n1 - 0x80) * 64 + (n2 - 0x80)
          if 0x800 ≤ v ∧ ¬(0xD800 ≤ v ∧ v < 0xE000) then some (v, rest') else none
        else none
      | _ => none
    else if n < 0xF5 then
      match rest with
      | n1 :: n2 :: n3 :: rest' =>
        if (0x80 ≤ n1 ∧ n1 < 0xC0) ∧ (0x80 ≤ n2 ∧ n2 < 0xC0) ∧ (0x80 ≤ n3 ∧ n3 < 0xC0) then
          let v := (n - 0xF0) * 262144 + (n1 - 0x80) * 4096 + (n2 - 0x80) * 64 + (n3 - 0x80)
          if 0x10000 ≤ v ∧ v < 0x110000 then some (v, rest') else none
        else none
      | _ => none
    else none

/-- Decode a whole byte-value list; the fuel argument only bounds the number
of decoded sequences (each consumes at least one byte). -/
def utf8DecodeLoop : Nat → List Nat → Option (List Nat)
  | _, [] => some []
  | 0, _ :: _ => none
  | fuel + 1, n :: rest =>
    (utf8DecodeOne (n :: rest)).bind (fun p => (utf8DecodeLoop fuel p.2).map (p.1 :: ·))

/-- UTF-8 decoding of a byte-value list into code points; `none` on any
malformed sequence. -/
def utf8DecodeNats (l : List Nat) : Option (List Nat) :=
  utf8DecodeLoop l.length l

/-- A code point a `Char` may carry. -/
def validCodePoint (n : Nat) : Prop :=
  n < 0xD800 ∨ (0xE000 ≤ n ∧ n < 0x110000)

theorem utf8DecodeOne_encode (n : Nat) (tail : List Nat) (h : validCodePoint n) :
    utf8DecodeOne (utf8EncodeCharNat n ++ tail) = some (n, tail) := by
  have hcases : n < 0x80 ∨ (0x80 ≤ n ∧ n < 0x800) ∨
      (0x800 ≤ n ∧ n < 0x10000 ∧ ¬(0xD800 ≤ n ∧ n < 0xE000)) ∨
      (0x10000 ≤ n ∧ n < 0x110000) := by
    rcases h with h1 | h2 <;> omega
  rcases hcases with h1 | h2 | h3 | h4
  · rw [utf8EncodeCharNat, if_pos h1]
    simp only [List.cons_append, List.nil_append, utf8DecodeOne]
    rw [if_pos h1]
  · rw [utf8EncodeCharNat, if_neg (by omega), if_pos (by omega)]
    simp only [List.cons_append, List.nil_append, utf8DecodeOne]
    rw [if_neg (by omega), if_neg (by omega), if_pos (by omega), if_pos (by omega)]
    have : (0xC0 + n / 64 - 0xC0) * 64 + (0x80 + n % 64 - 0x80) = n := by omega
    rw [this]
  · rw [utf8EncodeCharNat, if_neg (by omega), if_neg (by omega), if_pos (by omega)]
    simp only [List.cons_append, List.nil_append, utf8DecodeOne]
    rw [if_neg (by omega), if_neg (by omega), if_neg (by omega), if_pos (by omega),
      if_pos (by omega)]
    have hv : (0xE0 + n / 4096 - 0xE0) * 4096 + (0x80 + n / 64 % 64 - 0x80) * 64 +
        (0x80 + n % 64 - 0x80) = n := by omega
    rw [hv, if_pos (by omega)]
  · rw [utf8EncodeCharNat, if_neg (by omega), if_neg (by omega), if_neg (by omega)]
    simp only [List.cons_append, List.nil_append, utf8DecodeOne]
    rw [if_neg (by omega), if_neg (by omega), if_neg (by omega), if_neg (by omega),
      if_pos (by omega), if_pos (by omega)]
    have hv : (0xF0 + n / 262144 - 0xF0) * 262144 + (0x80 + n / 4096 % 64 - 0x80) * 4096 +
        (0x80 + n / 64 % 64 - 0x80) * 64 + (0x80 + n % 64 - 0x80) = n := by omega
    rw [hv, if_pos (by omega)]

theorem utf8EncodeCharNat_length_pos (n : Nat) : 0 < (utf8EncodeCharNat n).length := by
  rw [utf8EncodeCharNat]
  split
  · simp
  · split
    · simp
    · split <;> simp

theorem utf8EncodeCharNat_lt_256 {n m : Nat} (hn : n < 0x110000)
    (hm : m ∈ utf8EncodeCharNat n) : m < 256 := by
  rw [utf8EncodeCharNat] at hm
  split at hm
  · simp at hm; omega
  · split at hm
    · simp at hm; rcases hm with h | h <;> omega
    · split at hm
      · simp at hm; rcases hm with h | h | h <;> omega
      · simp at hm; rcases hm with h | h | h | h <;> omega

theorem utf8DecodeLoop_encode (l : List Nat) (fuel : Nat)
    (hf : (utf8EncodeNats l).length ≤ fuel)
    (h : ∀ n ∈ l, validCodePoint n) :
    utf8DecodeLoop fuel (utf8EncodeNats l) = some l := by
  induction l generalizing fuel with
  | nil => cases fuel <;> rfl
  | cons n t ih =>
    have hn : validCodePoint n := h n (by simp)
    have hpos := utf8EncodeCharNat_length_pos n
    rw [utf8EncodeNats, List.flatMap_cons] at hf ⊢
    cases hcc : utf8EncodeCharNat n with
    | nil => rw [hcc] at hpos; simp at hpos
    | cons c cs =>
      rw [hcc] at hf
      cases fuel with
      | zero => simp at hf
      | succ fuel =>
        rw [List.cons_append, utf8DecodeLoop]
        rw [← List.cons_append, ← hcc, utf8DecodeOne_encode n _ hn]
        have ht : utf8DecodeLoop fuel (utf8EncodeNats t) = some t := by
          refine ih fuel ?_ (fun m hm => h m (by simp [hm]))
          rw [utf8EncodeNats]
          simp only [List.length_cons, List.length_append] at hf
          omega
        rw [utf8EncodeNats] at ht
        simp [ht]

theorem utf8EncodeNats_injOn {l1 l2 : List Nat}
    (h1 : ∀ n ∈ l1, validCodePoint n) (h2 : ∀ n ∈ l2, validCodePoint n)
    (he : utf8EncodeNats l1 = utf8EncodeNats l2) : l1 = l2 := by
  have d1 := utf8DecodeLoop_encode l1 (utf8EncodeNats l1).length (le_refl _) h1
  have d2 := utf8DecodeLoop_encode l2 (utf8EncodeNats l2).length (le_refl _) h2
  rw [he] at d1
  rw [d2] at d1
  exact (Option.some_inj.mp d1).symm

theorem char_toNat_ofNat {m : Nat} (h : m < 0xD800) : (Char.ofNat m).toNat = m := by
  have hv : m.isValidChar := Or.inl h
  rw [Char.ofNat, dif_pos hv]
  simp [Char.ofNatAux, Char.toNat, UInt32.toNat]

theorem char_valid_nat (c : Char) : validCodePoint c.toNat := by
  rcases c.valid with h | ⟨h1, h2⟩
  · left; exact h
  · right; exact ⟨h1, h2⟩

theorem char_toNat_injective : Function.Injective Char.toNat := by
  intro a b h
  rw [← Char.ofNat_toNat a, ← Char.ofNat_toNat b, h]

theorem char_ofNat_injOn {l1 l2 : List Nat}
    (h1 : ∀ n ∈ l1, n < 0xD800) (h2 : ∀ n ∈ l2, n < 0xD800)
    (he : l1.map Char.ofNat = l2.map Char.ofNat) : l1 = l2 := by
  have hmap : l1.map (fun n => (Char.ofNat n).toNat) = l2.map (fun n => (Char.ofNat n).toNat) := by
    have := congrArg (List.map Char.toNat) he
    rwa [List.map_map, List.map_map] at this
  rw [List.map_congr_left (fun n hn => char_toNat_ofNat (h1 n hn)),
    List.map_congr_left (fun n hn => char_toNat_ofNat (h2 n hn))] at hmap
  simpa using hmap

/-- `unicode.encode('utf-8')` for a `unicode` value: the resulting byte
string, in the latin-1 view. -/
def pyUtf8Encode (s : String) : String :=
  ⟨(utf8EncodeNats (s.data.map Char.toNat)).map Char.ofNat⟩

theorem pyUtf8Encode_bytes_lt {s : String} {m : Nat}
    (hm : m ∈ utf8EncodeNats (s.data.map Char.toNat)) : m < 256 := by
  rw [utf8EncodeNats] at hm
  obtain ⟨n, hn, hmem⟩ := List.mem_flatMap.mp hm
  obtain ⟨c, _, rfl⟩ := List.mem_map.mp hn
  have hv := char_valid_nat c
  refine utf8EncodeCharNat_lt_256 ?_ hmem
  rcases hv with h | ⟨_, h⟩ <;> omega

theorem pyUtf8Encode_inj : Function.Injective pyUtf8Encode := by
  intro s1 s2 he
  have hdata : (utf8EncodeNats (s1.data.map Char.toNat)).map Char.ofNat
      = (utf8EncodeNats (s2.data.map Char.toNat)).map Char.ofNat := congrArg String.data he
  have henc := char_ofNat_injOn
    (fun m hm => by have := pyUtf8Encode_bytes_lt hm; omega)
    (fun m hm => by have := pyUtf8Encode_bytes_lt hm; omega) hdata
  have hl := utf8EncodeNats_injOn
    (fun n hn => by obtain ⟨c, _, rfl⟩ := List.mem_map.mp hn; exact char_valid_nat c)
    (fun n hn => by obtain ⟨c, _, rfl⟩ := List.mem_map.mp hn; exact char_valid_nat c) henc
  have hdq : s1.data = s2.data := (List.map_injective_iff.mpr char_toNat_injective) hl
  cases s1; cases s2; exact congrArg String.mk hdq

/-! ### Codecs: charsets, quoted-printable, base64, uuencode -/

/-- The codec kinds resolvable in this embedding of the Python codec
registry. -/
inductive Codec where
  | utf8
  | ascii
  | latin1
  deriving Repr, DecidableEq

/-- `codecs.lookup` on a charset name (embedded subset: the aliases of the
three codecs reached by this code base; any other name is unknown and makes
`str.decode` raise `LookupError`). -/
def lookupCodec (name : String) : Option Codec :=
  let n := pyLower name
  if n = "utf-8" ∨ n = "utf8" ∨ n = "utf_8" ∨ n = "u8" ∨ n = "utf" then some .utf8
  else if n = "ascii" ∨ n = "us-ascii" ∨ n = "646" then some .ascii
  else if n = "latin-1" ∨ n = "latin1" ∨ n = "latin_1" ∨ n = "iso-8859-1" ∨
    n = "iso8859-1" ∨ n = "8859" ∨ n = "cp819" ∨ n = "latin" ∨ n = "l1" then some .latin1
  else none

/-- `bytes.decode(charsetName)` for a Python 2 `str` (byte characters):
known codecs decode, an unknown name raises `LookupError`. -/
def pyDecode (name : String) (b : String) : Except PyErr String :=
  match lookupCodec name with
  | none => .error .lookupError
  | some .latin1 => .ok b
  | some .ascii => pyAsciiDecode b
  | some .utf8 =>
    match utf8DecodeNats (b.data.map Char.toNat) with
    | some cps => .ok ⟨cps.map Char.ofNat⟩
    | none => .error .unicodeDecodeError

/-- `quopri` body decoding, as performed by
`mimetools.decode(stream, output, 'quoted-printable')` and by
`email.utils._qdecode`: `=XX` hex escapes become bytes, `=` before a line
end is a soft break, everything else passes through. -/
def qpDecodeChars : List Char → List Char
  | [] => []
  | '=' :: '\n' :: rest => qpDecodeChars rest
  | '=' :: '\x0d' :: '\n' :: rest => qpDecodeChars rest
  | '=' :: c1 :: c2 :: rest =>
    match hexVal c1, hexVal c2 with
    | some v1, some v2 => Char.ofNat (16 * v1 + v2) :: qpDecodeChars rest
    | _, _ => '=' :: qpDecodeChars (c1 :: c2 :: rest)
  | c :: rest => c :: qpDecodeChars rest

def qpDecode (b : String) : String :=
  ⟨qpDecodeChars b.data⟩

/-- `email.quoprimime.header_decode` on the text of a `q` encoded word:
underscores become spaces, then every `=\w\w` escape is decoded via
`int(_, 16)` — which raises `ValueError` when the two word characters are
not hex digits. -/
def headerDecodeQAux : List Char → Except PyErr (List Char)
  | [] => .ok []
  | '=' :: c1 :: c2 :: rest =>
    if pyIsWordChar c1 ∧ pyIsWordChar c2 then
      match hexVal c1, hexVal c2 with
      | some v1, some v2 => (headerDecodeQAux rest).map (Char.ofNat (16 * v1 + v2) :: ·)
      | _, _ => .error .valueError
    else (headerDecodeQAux (c1 :: c2 :: rest)).map ('=' :: ·)
  | c :: rest => (headerDecodeQAux rest).map (c :: ·)

def headerDecodeQ (s : String) : Except PyErr String :=
  (headerDecodeQAux (pyReplaceChar s '_' ' ').data).map (⟨·⟩)

/-- Value of a base64 alphabet symbol. -/
def b64Val (c : Char) : Option Nat :=
  if 'A' ≤ c ∧ c ≤ 'Z' then some (c.toNat - 65)
  else if 'a' ≤ c ∧ c ≤ 'z' then some (c.toNat - 97 + 26)
  else if '0' ≤ c ∧ c ≤ '9' then some (c.toNat - 48 + 52)
  else if c = '+' then some 62
  else if c = '/' then some 63
  else none

/-- Bytes of one base64 quantum of 2–4 six-bit values. -/
def b64Quantum : List Nat → List Nat
  | [a, b] => [a * 4 + b / 16]
  | [a, b, c] => [a * 4 + b / 16, b % 16 * 16 + c / 4]
  | [a, b, c, d] => [a * 4 + b / 16, b % 16 * 16 + c / 4, c % 4 * 64 + d]
  | _ => []

def b64Chunks : List Nat → List Nat
  | a :: b :: c :: d :: rest => b64Quantum [a, b, c, d] ++ b64Chunks rest
  | short => b64Quantum short

/-- Base64 decoding in the lenient style of `binascii.a2b_base64`:
characters outside the alphabet (padding included) are skipped, a trailing
group of 2 or 3 symbols still yields its complete bytes. -/
def b64Decode (s : String) : String :=
  ⟨(b64Chunks (s.data.filterMap b64Val)).map Char.ofNat⟩

/-- `email.utils._bdecode`: base64-decode, undoing a newline the codec adds
when the input had none. -/
def bdecodeBytes (b : String) : String :=
  if b = "" then b
  else
    let value := b64Decode b
    if ¬ pyEndsWith b "\n" ∧ pyEndsWith value "\n" then value.dropRight 1 else value

/-- Six-bit value of a uuencode symbol (`(ord(c) - 32) & 0o77`). -/
def uuVal (c : Char) : Nat :=
  if 32 ≤ c.toNat then (c.toNat - 32) % 64 else 0

/-- Decode the data lines of a uuencoded body: each line carries a length
symbol and then 4-symbol groups; a zero-length line terminates. -/
def uuDecodeLines : List String → List Nat
  | [] => []
  | line :: rest =>
    match line.data with
    | [] => []
    | c :: syms =>
      let n := uuVal c
      if n = 0 then [] else (b64Chunks (syms.map uuVal)).take n ++ uuDecodeLines rest

/-- `uu.decode(..., quiet=True)` as invoked by `get_payload(decode=True)`:
find the `begin` line and decode the following data lines; no `begin` line
is a `uu.Error`, which the caller turns into returning the payload
unchanged. -/
def uuDecode (s : String) : Option String :=
  match (pySplitlines s).dropWhile (fun l => ¬ pyStartsWith l "begin") with
  | [] => none
  | _ :: dataLines => some ⟨(uuDecodeLines dataLines).map Char.ofNat⟩

/-! ### `email.header.decode_header` and `Attachment.decode_filename` -/

/-- The text of an encoded word: shortest run up to the closing `?=`; `.`
does not match a newline in the `ecre` pattern. -/
def ewText : List Char → Option (List Char × List Char)
  | '?' :: '=' :: rest => some ([], rest)
  | '\n' :: _ => none
  | c :: cs => (ewText cs).map (fun p => (c :: p.1, p.2))
  | [] => none

/-- The charset of an encoded word: run up to the next `?` (`[^?]*?`). -/
def ewCharset : List Char → Option (List Char × List Char)
  | [] => none
  | '?' :: rest => some ([], rest)
  | c :: cs => (ewCharset cs).map (fun p => (c :: p.1, p.2))

/-- Try to match the `ecre` pattern `=?charset?[qQbB]?text?=` at the head of
the character list, returning charset, encoding flag, text and remainder. -/
def tryEncodedWord : List Char → Option (List Char × Char × List Char × List Char)
  | '=' :: '?' :: rest =>
    (ewCharset rest).bind (fun p =>
      match p.2 with
      | e :: '?' :: r2 =>
        if e = 'q' ∨ e = 'Q' ∨ e = 'b' ∨ e = 'B' then
          (ewText r2).map (fun q => (p.1, e, q.1, q.2))
        else none
      | _ => none)
  | _ => none

/-- Leftmost `ecre` match in a character list: the unmatched prefix and the
parts of the match. -/
def scanEncodedWord : List Char → Option (List Char × (List Char × Char × List Char × List Char))
  | [] => none
  | c :: cs =>
    match tryEncodedWord (c :: cs) with
    | some r => some ([], r)
    | none => (scanEncodedWord cs).map (fun p => (c :: p.1, p.2))

/-- `ecre.search(s)` succeeds, i.e. the header contains an RFC 2047 encoded
word. -/
def hasEncodedWord (s : String) : Bool :=
  (scanEncodedWord s.data).isSome

/-- Decode the payload of one encoded word per its (case-insensitive)
`q`/`b` flag, as `decode_header` does. -/
def decodeEWPayload (e : Char) (text : List Char) : Except PyErr String :=
  if e = 'q' ∨ e = 'Q' then headerDecodeQ ⟨text⟩
  else
    let padded := String.mk text ++
      (if text.length % 4 = 0 then "" else ("===".take (4 - text.length % 4)))
    .ok (b64Decode padded)

/-- `decode_header`'s merge of a stripped unencoded part: continue a
preceding charset-less piece with a space, else append. -/
def dhAppendPlain (decoded : List (String × Option String)) (unenc : String) :
    List (String × Option String) :=
  match decoded.getLast? with
  | some (txt, none) => decoded.dropLast ++ [(txt ++ " " ++ unenc, none)]
  | _ => decoded ++ [(unenc, none)]

/-- `decode_header`'s merge of a decoded encoded-word: concatenate onto a
preceding piece with the same charset, else append. -/
def dhAppendEnc (decoded : List (String × Option String)) (dec : String) (charset : String) :
    List (String × Option String) :=
  match decoded.getLast? with
  | some (txt, some cs) =>
    if cs = charset then decoded.dropLast ++ [(txt ++ dec, some cs)]
    else decoded ++ [(dec, some charset)]
  | _ => decoded ++ [(dec, some charset)]

/-- The `while parts:` loop of `decode_header` over one line; the fuel bounds
the number of encoded words on the line (each match consumes characters). -/
def dhProcessLine (fuel : Nat) (decoded : List (String × Option String)) (l : List Char) :
    Except PyErr (List (String × Option String)) :=
  match fuel with
  | 0 => .ok decoded
  | fuel + 1 =>
    match scanEncodedWord l with
    | none =>
      let unenc := pyStrip ⟨l⟩
      .ok (if unenc ≠ "" then dhAppendPlain decoded unenc else decoded)
    | some (pre, cset, e, t, rest) => do
      let unenc := pyStrip ⟨pre⟩
      let decoded := if unenc ≠ "" then dhAppendPlain decoded unenc else decoded
      let dec ← decodeEWPayload e t
      dhProcessLine fuel (dhAppendEnc decoded dec (pyLower ⟨cset⟩)) rest

/-- `email.header.decode_header` (Python 2.7): headers without encoded words
come back whole and charset-less; otherwise each line is split at its
encoded words and adjacent pieces are merged per charset. -/
def decode_header (s : String) : Except PyErr (List (String × Option String)) :=
  if ¬ hasEncodedWord s then .ok [(s, none)]
  else
    (pySplitlines s).foldlM
      (fun decoded line =>
        if ¬ hasEncodedWord line then .ok (decoded ++ [(line, none)])
        else dhProcessLine (line.length + 1) decoded line.data)
      []

/-- The inner `decode(text, encoding)` of `Attachment.decode_filename`
(`emaildata/attachment.py`, lines 67–75): charset-decode a piece, falling
back to the original text on `UnicodeDecodeError`; other exceptions (such as
`LookupError` for an unknown charset) escape. -/
def dfDecodePiece : String × Option String → Except PyErr PyStr
  | (text, none) => .ok (.bytes text)
  | (text, some enc) =>
    match pyDecode enc text with
    | .ok u => .ok (.uni u)
    | .error .unicodeDecodeError => .ok (.bytes text)
    | .error e => .error e

/-- `u"".join(pieces)`: joining onto a `unicode` promotes byte strings
through the implicit ascii codec. -/
def pyUJoin : List PyStr → Except PyErr String
  | [] => .ok ""
  | .uni s :: rest => (pyUJoin rest).map (s ++ ·)
  | .bytes b :: rest => do
    let s ← pyAsciiDecode b
    (pyUJoin rest).map (s ++ ·)

/-- `Attachment.decode_filename` (`emaildata/attachment.py`, lines 62–82):
decode the RFC 2047 pieces of a filename and join them; on a
`UnicodeDecodeError`/`UnicodeEncodeError` anywhere in that, return the
original filename. -/
def Attachment.decode_filename (filename : Option String) : Except PyErr (Option String) :=
  match filename with
  | none => .ok none
  | some f =>
    if f = "" then .ok (some f)
    else
      let body : Except PyErr String := do
        let pieces ← decode_header f
        let decoded ← pieces.mapM dfDecodePiece
        let joined ← pyUJoin decoded
        .ok (pyStrip joined)
      match body with
      | .ok r => .ok (some r)
      | .error .unicodeDecodeError => .ok (some f)
      | .error .unicodeEncodeError => .ok (some f)
      | .error e => .error e

/-! ### `email.message.Message` model and `Text.decode_content` -/

/-- An `email.message.Message`: a leaf part carrying a raw payload, or a
multipart part carrying child messages (`is_multipart()` tests exactly
whether the payload is a list). -/
inductive EMessage where
  | leaf (headers : List (String × String)) (body : PyStr)
  | multi (headers : List (String × String)) (parts : List EMessage)

def EMessage.headers : EMessage → List (String × String)
  | .leaf hs _ => hs
  | .multi hs _ => hs

/-- `Message.is_multipart()`. -/
def EMessage.is_multipart : EMessage → Bool
  | .leaf _ _ => false
  | .multi _ _ => true

/-- `message[name]` / `message.get(name)`: first header whose name matches
case-insensitively. -/
def pyHeaderGet (hs : List (String × String)) (name : String) : Option String :=
  (hs.find? (fun kv => pyLower kv.1 == pyLower name)).map Prod.snd

/-- `message.get_all(name)`: every matching header value, in order. -/
def pyHeaderGetAll (hs : List (String × String)) (name : String) : List String :=
  (hs.filter (fun kv => pyLower kv.1 == pyLower name)).map Prod.snd

/-- Count the occurrences of a character in a string. -/
def countChar (s : String) (c : Char) : Nat :=
  (s.data.filter (· = c)).length

/-- `Message.get_content_type()`: the part before the first `;` of the
`Content-Type` header, lowercased and stripped; `text/plain` when the header
is missing or does not contain exactly one `/`. -/
def EMessage.get_content_type (m : EMessage) : String :=
  match pyHeaderGet m.headers "Content-Type" with
  | none => "text/plain"
  | some v =>
    let ct := pyStrip (pyLower ((pySplitOnChar v ';').headD ""))
    if countChar ct '/' ≠ 1 then "text/plain" else ct

/-- Strip one layer of surrounding double quotes (`email.utils.unquote`). -/
def pyUnquoteParam (v : String) : String :=
  if v.length ≥ 2 ∧ pyStartsWith v "\"" ∧ pyEndsWith v "\"" then
    (v.drop 1).dropRight 1
  else v

/-- `Message.get_param(pname, header)`: scan the `;`-separated parameters of
the header for `pname=value` (names compared lowercased), unquoting the
value. -/
def pyGetParam (hs : List (String × String)) (header pname : String) : Option String :=
  (pyHeaderGet hs header).bind (fun v =>
    ((pySplitOnChar v ';').filterMap (fun seg =>
        match seg.data.findIdx? (· = '=') with
        | none => none
        | some i =>
          some (pyStrip (pyLower ⟨seg.data.take i⟩), pyStrip ⟨seg.data.drop (i + 1)⟩))).find?
      (fun p => p.1 == pyLower pname) |>.map (fun p => pyUnquoteParam p.2))

/-- `Message.get_filename()`: the `filename` parameter of
`Content-Disposition`, else the `name` parameter of `Content-Type`, unquoted
and stripped; `None` when absent. -/
def EMessage.get_filename (m : EMessage) : Option String :=
  match pyGetParam m.headers "Content-Disposition" "filename" with
  | some v => some (pyStrip (pyUnquoteParam v))
  | none =>
    match pyGetParam m.headers "Content-Type" "name" with
    | some v => some (pyStrip (pyUnquoteParam v))
    | none => none

/-- `Message.get_payload(decode=True)` for a leaf part (Python 2.7):
dispatch on the lowercased `Content-Transfer-Encoding`; quoted-printable and
base64 are decoded (a `unicode` payload is first coerced through the ascii
codec), the uuencode family is decoded with failures returning the payload
unchanged, anything else returns the payload unchanged. -/
def get_payload_decode (hs : List (String × String)) (payload : PyStr) : Except PyErr PyStr :=
  let cte := pyLower ((pyHeaderGet hs "content-transfer-encoding").getD "")
  if cte = "quoted-printable" then
    (cstringBytes payload).map (fun b => .bytes (qpDecode b))
  else if cte = "base64" then
    (cstringBytes payload).map (fun b => .bytes (bdecodeBytes b))
  else if cte = "x-uuencode" ∨ cte = "uuencode" ∨ cte = "uue" ∨ cte = "x-uue" then do
    let b ← cstringBytes payload
    match uuDecode (b ++ "\n") with
    | some out => .ok (.bytes out)
    | none => .ok payload
  else .ok payload

/-- `Text.decode_content` (`emaildata/text.py`, lines 40–49) on a leaf part,
given its headers and raw payload: an explicit quoted-printable branch via
`mimetools.decode` when the stripped `Content-Transfer-Encoding` equals
`quoted-printable`, else the part's own `get_payload(decode=True)`. -/
def Text.decode_content (hs : List (String × String)) (payload : PyStr) : Except PyErr PyStr :=
  match pyHeaderGet hs "Content-Transfer-Encoding" with
  | some encoding =>
    if encoding ≠ "" ∧ pyStrip encoding = "quoted-printable" then do
      let b ← cstringBytes payload
      .ok (.bytes (qpDecode b))
    else get_payload_decode hs payload
  | none => get_payload_decode hs payload

/-! ### `Attachment.extract` -/

def pyStrBytes : PyStr → String
  | .bytes b => b
  | .uni s => s

def headerLines (hs : List (String × String)) : String :=
  String.join (hs.map (fun kv => kv.1 ++ ": " ++ kv.2 ++ "\n"))

mutual
/-- `str(message)`, i.e. `Message.as_string()`: modelled as the byte
serialization of headers, a blank line, then the flattened payload. -/
def msgToString : EMessage → String
  | .leaf hs b => headerLines hs ++ "\n" ++ pyStrBytes b
  | .multi hs parts => headerLines hs ++ "\n" ++ msgListToString parts

def msgListToString : List EMessage → String
  | [] => ""
  | m :: rest => msgToString m ++ msgListToString rest
end

/-- One element yielded by `Attachment.extract`: decoded content, decoded
filename, mimetype and the originating part. -/
structure ExtractItem where
  content : PyStr
  filename : Option String
  mimetype : String
  part : EMessage

/-- The filename filter `not only_with_filename or attachment.get_filename()`
(`None` and the empty string are falsy). -/
def passesFilenameFilter (only_with_filename : Bool) (m : EMessage) : Bool :=
  !only_with_filename ||
    (match m.get_filename with
     | some s => s ≠ ""
     | none => false)

/-- The body of `Attachment.extract`'s `try` block (lines 54–58): decoded
content (`str(attachment)` for a multipart candidate, `Text.decode_content`
for a leaf), decoded filename, and mimetype of one candidate. -/
def decodeCandidate (att : EMessage) : Except PyErr ExtractItem := do
  let content ← match att with
    | .leaf hs b => Text.decode_content hs b
    | .multi hs parts => .ok (.bytes (msgToString (.multi hs parts)))
  let filename ← Attachment.decode_filename att.get_filename
  .ok ⟨content, filename, att.get_content_type, att⟩

mutual
/-- `Attachment.extract` (`emaildata/attachment.py`, lines 20–60): iterate
the children of a multipart message in document order; a
`multipart/alternative` child is expanded recursively, any other child is a
candidate subject to the filename filter, and a candidate whose decoding
raises a `UnicodeDecodeError`/`UnicodeEncodeError` is skipped.  A
non-multipart message yields nothing. -/
def Attachment.extract (only_with_filename : Bool) : EMessage → Except PyErr (List ExtractItem)
  | .leaf _ _ => .ok []
  | .multi _ parts => extractList only_with_filename parts

/-- One iteration of the `for attachment in message.get_payload():` loop. -/
def processChild (only_with_filename : Bool) (att : EMessage) : Except PyErr (List ExtractItem) :=
  if att.is_multipart && att.get_content_type == "multipart/alternative" then
    Attachment.extract only_with_filename att
  else if passesFilenameFilter only_with_filename att then
    match decodeCandidate att with
    | .ok item => .ok [item]
    | .error e => if e.isUnicode then .ok [] else .error e
  else .ok []

def extractList (only_with_filename : Bool) : List EMessage → Except PyErr (List ExtractItem)
  | [] => .ok []
  | att :: rest => do
    let items ← processChild only_with_filename att
    let more ← extractList only_with_filename rest
    .ok (items ++ more)
end

/-! ### `MetaData` (`emaildata/metadata.py`) -/

/-- Python `hay.find(sub)` scan from offset `i`; `none` models Python's
`-1`. -/
def pyFindAux (hay sub : List Char) (i : Nat) : Option Nat :=
  match hay with
  | [] => if sub.isEmpty then some i else none
  | _ :: t => if sub.isPrefixOf hay then some i else pyFindAux t sub (i + 1)

def pyFindSub (hay sub : List Char) : Option Nat :=
  pyFindAux hay sub 0

def parseaddrAngle (t : List Char) (i : Nat) : String × String :=
  let name := pyStrip ⟨t.take i⟩
  let addr := (t.drop (i + 1)).takeWhile (· ≠ '>')
  (name, ⟨addr⟩)

def parseaddrBare (t : List Char) : String × String :=
  ("", pyStrip ⟨t⟩)

/-- `email.utils.parseaddr`, embedded for the address forms this code path
exercises: an optional display name before `<addr>`, or a bare address
token, each delimited by a top-level `,`; quoting and comments are outside
the modelled fragment.  Returns `("", "")` when nothing parses. -/
def parseaddr (s : String) : String × String :=
  let t := s.data.dropWhile pyIsSpace
  if t.isEmpty then ("", "")
  else
    match t.findIdx? (· = '<'), t.findIdx? (· = ',') with
    | some i, some j => if i < j then parseaddrAngle t i else parseaddrBare (t.take j)
    | some i, none => parseaddrAngle t i
    | none, some j => parseaddrBare (t.take j)
    | none, none => parseaddrBare t

/-- The `while address:` loop of `MetaData._address` (`metadata.py`, lines
214–227), returned as the ordered sequence of `result[address] = name or
None` assignments.  The fuel is always sufficient because each iteration
consumes at least one character; `find` cannot miss because the embedded
`parseaddr` returns substrings of its input (a miss is modelled as ending
the loop after the assignment). -/
def addressLoop (fuel : Nat) (header_value : String) : List (String × Option String) :=
  match fuel with
  | 0 => []
  | fuel + 1 =>
    let na := parseaddr header_value
    if na.2 = "" then []
    else
      let pair := (na.2, if na.1 = "" then none else some na.1)
      match pyFindSub header_value.data na.2.data with
      | none => [pair]
      | some fidx =>
        let index := fidx + na.2.length
        if index ≥ header_value.length then [pair]
        else
          let index := if header_value.data.getD index ' ' = '>' then index + 1 else index
          if index ≥ header_value.length then [pair]
          else
            let index := if header_value.data.getD index ' ' = ',' then index + 1 else index
            pair :: addressLoop fuel (pyStrip ⟨header_value.data.drop index⟩)

/-- A Python dict with string keys: an association list with unique keys
(Python 2 dicts are unordered; the order carried here is insertion order,
and every property proved of it is order-independent). -/
abbrev PyDict (α : Type) := List (String × α)

def pyDictLookup {α : Type} (d : PyDict α) (k : String) : Option α :=
  (d.find? (fun kv => kv.1 == k)).map Prod.snd

/-- `d[k] = v`: replace the value at an existing key, else append. -/
def pyDictSet {α : Type} (d : PyDict α) (kv : String × α) : PyDict α :=
  if (d.find? (fun p => p.1 == kv.1)).isSome then
    d.map (fun p => if p.1 == kv.1 then (p.1, kv.2) else p)
  else d ++ [kv]

/-- `d.update(e)`: set every entry of `e` in `d`. -/
def pyDictUpdate {α : Type} (d e : PyDict α) : PyDict α :=
  e.foldl pyDictSet d

def pyDictKeys {α : Type} (d : PyDict α) : List String :=
  d.map Prod.fst

/-- Python 2 bytewise `<=` on strings (the comparison `sorted` uses). -/
def pyStrLeChars : List Char → List Char → Bool
  | [], _ => true
  | _ :: _, [] => false
  | a :: as, b :: bs =>
    if a.toNat < b.toNat then true
    else if b.toNat < a.toNat then false
    else pyStrLeChars as bs

def pyStrLe (a b : String) : Bool :=
  pyStrLeChars a.data b.data

/-- Python `sorted` on string lists: the sorted permutation under the
bytewise lexicographic order. -/
def pySorted (l : List String) : List String :=
  List.insertionSort (fun a b => pyStrLe a b = true) l

theorem pyStrLeChars_total : ∀ x y : List Char,
    pyStrLeChars x y = true ∨ pyStrLeChars y x = true := by
  intro x
  induction x with
  | nil => intro y; left; rfl
  | cons a as ih =>
    intro y
    cases y with
    | nil => right; rfl
    | cons b bs =>
      simp only [pyStrLeChars]
      by_cases hab : a.toNat < b.toNat
      · left; rw [if_pos hab]
      · by_cases hba : b.toNat < a.toNat
        · right; rw [if_pos hba]
        · rw [if_neg hab, if_neg hba, if_neg hba, if_neg hab]
          exact ih bs

theorem pyStrLeChars_trans : ∀ x y z : List Char,
    pyStrLeChars x y = true → pyStrLeChars y z = true → pyStrLeChars x z = true := by
  intro x
  induction x with
  | nil => intro y z _ _; rfl
  | cons a as ih =>
    intro y z hxy hyz
    cases y with
    | nil => simp [pyStrLeChars] at hxy
    | cons b bs =>
      cases z with
      | nil => simp [pyStrLeChars] at hyz
      | cons c cs =>
        simp only [pyStrLeChars] at hxy hyz ⊢
        by_cases hab : a.toNat < b.toNat
        · by_cases hbc : b.toNat < c.toNat
          · rw [if_pos (by omega)]
          · by_cases hcb : c.toNat < b.toNat
            · rw [if_neg hbc, if_pos hcb] at hyz
              exact absurd hyz (by simp)
            · rw [if_pos (by omega)]
        · by_cases hba : b.toNat < a.toNat
          · rw [if_neg hab, if_pos hba] at hxy
            exact absurd hxy (by simp)
          · rw [if_neg hab, if_neg hba] at hxy
            by_cases hbc : b.toNat < c.toNat
            · rw [if_pos (by omega)]
            · by_cases hcb : c.toNat < b.toNat
              · rw [if_neg hbc, if_pos hcb] at hyz
                exact absurd hyz (by simp)
              · rw [if_neg hbc, if_neg hcb] at hyz
                rw [if_neg (by omega), if_neg (by omega)]
                exact ih bs cs hxy hyz

instance : IsTotal String (fun a b => pyStrLe a b = true) :=
  ⟨fun a b => pyStrLeChars_total a.data b.data⟩

instance : IsTrans String (fun a b => pyStrLe a b = true) :=
  ⟨fun a b c => pyStrLeChars_trans a.data b.data c.data⟩

theorem pySorted_sorted (l : List String) :
    List.Sorted (fun a b => pyStrLe a b = true) (pySorted l) :=
  List.sorted_insertionSort _ l

theorem pySorted_nodup {l : List String} (h : l.Nodup) : (pySorted l).Nodup :=
  (List.perm_insertionSort _ l).symm.nodup h

theorem pyDictLookup_map_replace {α : Type} (t : PyDict α) (k : String) (v : α) (a : String)
    (hne : ¬ k = a) :
    pyDictLookup (t.map (fun p => if p.1 == k then (p.1, v) else p)) a
      = pyDictLookup t a := by
  induction t with
  | nil => rfl
  | cons p t ih =>
    by_cases hpa : (fun kv : String × α => kv.1 == a) p = true
    · have hpk : ¬ p.1 = k := by
        have hpa' : p.1 = a := by simpa using hpa
        rw [hpa']
        exact fun h => hne (Eq.symm h)
      have hhead : (if p.1 == k then (p.1, v) else p) = p := by simp [hpk]
      rw [List.map_cons, hhead, pyDictLookup, pyDictLookup,
        @List.find?_cons_of_pos _ (fun kv : String × α => kv.1 == a) p _ hpa,
        @List.find?_cons_of_pos _ (fun kv : String × α => kv.1 == a) p _ hpa]
    · have hkey : ¬ (fun kv : String × α => kv.1 == a) (if p.1 == k then (p.1, v) else p)
          = true := by
        by_cases h : p.1 = k <;> simpa [h] using hpa
      rw [List.map_cons, pyDictLookup, pyDictLookup,
        @List.find?_cons_of_neg _ (fun kv : String × α => kv.1 == a) _ _ hkey,
        @List.find?_cons_of_neg _ (fun kv : String × α => kv.1 == a) p _ hpa]
      exact ih

theorem pyDictLookup_map_replace_found {α : Type} (t : PyDict α) (k : String) (v : α)
    (hfound : (t.find? (fun p => p.1 == k)).isSome = true) :
    pyDictLookup (t.map (fun p => if p.1 == k then (p.1, v) else p)) k = some v := by
  induction t with
  | nil => simp [List.find?] at hfound
  | cons p t ih =>
    by_cases hpk : p.1 = k
    · have hhead : (if p.1 == k then (p.1, v) else p) = (p.1, v) := by simp [hpk]
      have hhit : (fun kv : String × α => kv.1 == k) (p.1, v) = true := by simp [hpk]
      rw [List.map_cons, hhead, pyDictLookup,
        @List.find?_cons_of_pos _ (fun kv : String × α => kv.1 == k) (p.1, v) _ hhit]
      rfl
    · have hhead : (if p.1 == k then (p.1, v) else p) = p := by simp [hpk]
      have hskip : ¬ (fun kv : String × α => kv.1 == k) p = true := by simp [hpk]
      rw [List.map_cons, hhead, pyDictLookup,
        @List.find?_cons_of_neg _ (fun kv : String × α => kv.1 == k) p _ hskip]
      have hf : (t.find? (fun p => p.1 == k)).isSome = true := by
        rw [@List.find?_cons_of_neg _ (fun kv : String × α => kv.1 == k) p _ hskip] at hfound
        exact hfound
      exact ih hf

theorem pyDictLookup_append_single {α : Type} (d : PyDict α) (k : String) (v : α) (a : String) :
    pyDictLookup (d ++ [(k, v)]) a
      = match pyDictLookup d a with
        | some x => some x
        | none => if k = a then some v else none := by
  induction d with
  | nil =>
    by_cases h : k = a
    · simp [pyDictLookup, List.find?, h]
    · have hb : (k == a) = false := by simp [h]
      simp [pyDictLookup, List.find?, hb, h]
  | cons p t ih =>
    by_cases hpa : (fun kv : String × α => kv.1 == a) p = true
    · rw [List.cons_append, pyDictLookup, pyDictLookup,
        @List.find?_cons_of_pos _ (fun kv : String × α => kv.1 == a) p _ hpa,
        @List.find?_cons_of_pos _ (fun kv : String × α => kv.1 == a) p _ hpa]
      rfl
    · rw [List.cons_append, pyDictLookup, pyDictLookup,
        @List.find?_cons_of_neg _ (fun kv : String × α => kv.1 == a) p _ hpa,
        @List.find?_cons_of_neg _ (fun kv : String × α => kv.1 == a) p _ hpa]
      exact ih

theorem pyDict_find_none_lookup {α : Type} (d : PyDict α) (k : String)
    (h : ¬ (d.find? (fun p => p.1 == k)).isSome = true) :
    pyDictLookup d k = none := by
  rw [pyDictLookup]
  cases hf : d.find? (fun p => p.1 == k) with
  | none => rfl
  | some p => rw [hf] at h; simp at h

theorem pyDictLookup_set {α : Type} (d : PyDict α) (k : String) (v : α) (a : String) :
    pyDictLookup (pyDictSet d (k, v)) a = if k = a then some v else pyDictLookup d a := by
  rw [pyDictSet]
  by_cases hfound : (d.find? (fun p => p.1 == (k, v).1)).isSome = true
  · rw [if_pos hfound]
    by_cases hka : k = a
    · subst hka
      rw [if_pos rfl]
      exact pyDictLookup_map_replace_found d k v hfound
    · rw [if_neg hka]
      exact pyDictLookup_map_replace d k v a hka
  · rw [if_neg hfound, pyDictLookup_append_single]
    by_cases hka : k = a
    · subst hka
      rw [pyDict_find_none_lookup d k hfound]
    · rw [if_neg hka]
      cases pyDictLookup d a <;> simp [hka]

theorem pyDictLookup_foldl (asg : List (String × Option String)) :
    ∀ (d : PyDict (Option String)) (a : String),
    pyDictLookup (asg.foldl pyDictSet d) a
      = match (asg.filter (fun q => q.1 == a)).getLast? with
        | some q => some q.2
        | none => pyDictLookup d a := by
  induction asg with
  | nil => intro d a; rfl
  | cons kv rest ih =>
    intro d a
    rw [List.foldl_cons, ih]
    by_cases hka : (fun q : String × Option String => q.1 == a) kv = true
    · rw [@List.filter_cons_of_pos _ (fun q : String × Option String => q.1 == a) kv rest hka]
      cases hF : rest.filter (fun q => q.1 == a) with
      | nil =>
        simp only [List.getLast?_nil, List.getLast?_singleton]
        rw [pyDictLookup_set, if_pos (by simpa using hka)]
      | cons q L =>
        rw [List.getLast?_cons_cons]
        cases hL : (q :: L).getLast? with
        | none => rw [List.getLast?_eq_none_iff] at hL; cases hL
        | some x => rfl
    · rw [@List.filter_cons_of_neg _ (fun q : String × Option String => q.1 == a) kv rest hka]
      cases hF : rest.filter (fun q => q.1 == a) with
      | nil =>
        simp only [List.getLast?_nil]
        rw [pyDictLookup_set, if_neg (by simpa using hka)]
      | cons q L =>
        cases hL : (q :: L).getLast? with
        | none => rw [List.getLast?_eq_none_iff] at hL; cases hL
        | some x => rfl

theorem pyDictKeys_set_nodup {α : Type} (d : PyDict α) (kv : String × α)
    (h : (pyDictKeys d).Nodup) : (pyDictKeys (pyDictSet d kv)).Nodup := by
  rw [pyDictSet]
  by_cases hfound : (d.find? (fun p => p.1 == kv.1)).isSome = true
  · rw [if_pos hfound]
    have hkeys : pyDictKeys (d.map (fun p => if p.1 == kv.1 then (p.1, kv.2) else p))
        = pyDictKeys d := by
      rw [pyDictKeys, pyDictKeys, List.map_map]
      apply List.map_congr_left
      intro p _
      by_cases hp : p.1 = kv.1 <;> simp [hp]
    rw [hkeys]
    exact h
  · rw [if_neg hfound, pyDictKeys, List.map_append]
    refine List.Nodup.append h (List.nodup_singleton _) ?_
    intro x hx hy
    simp at hy
    subst hy
    apply hfound
    rw [List.find?_isSome]
    obtain ⟨p, hp, he⟩ := List.mem_map.mp hx
    exact ⟨p, hp, by simp [he]⟩

theorem pyDictFold_keys_nodup (asg : List (String × Option String)) :
    ∀ d : PyDict (Option String), (pyDictKeys d).Nodup →
      (pyDictKeys (asg.foldl pyDictSet d)).Nodup := by
  induction asg with
  | nil => intro d h; exact h
  | cons kv rest ih =>
    intro d h
    rw [List.foldl_cons]
    exact ih _ (pyDictKeys_set_nodup d kv h)

/-- `MetaData._address` (`metadata.py`, lines 187–230): normalize newlines,
decode the header's RFC 2047 pieces (the nested `decode` helper is the same
as `decode_filename`'s), join, strip, then iteratively parse addresses;
returns the updated `self.names` and the sorted, utf-8-encoded address
list. -/
def MetaData._address (names : PyDict (Option String)) (header : Option String) :
    Except PyErr (PyDict (Option String) × List String) :=
  match header with
  | none => .ok (names, [])
  | some hv0 =>
    if hv0 = "" then .ok (names, [])
    else do
      let pieces ← decode_header (pyReplaceChar hv0 '\n' ' ')
      let decoded ← pieces.mapM dfDecodePiece
      let joined ← pyUJoin decoded
      let hv := pyStrip joined
      let result := (addressLoop (hv.length + 1) hv).foldl pyDictSet []
      let names' := pyDictUpdate names result
      .ok (names', pySorted ((pyDictKeys result).map pyUtf8Encode))

/-- `charset.text_to_utf8`.  Modelled from the spec: the `charset` module
imported by `metadata.py` is not under `src/`; per the spec's decoding
contract (declared charset → UTF-8 → raw passthrough) it re-decodes raw
header bytes as UTF-8 and falls back to the raw text. -/
def text_to_utf8 (b : String) : String :=
  match utf8DecodeNats (b.data.map Char.toNat) with
  | some cps => ⟨cps.map Char.ofNat⟩
  | none => b

/-- `MetaData._header_values` (`metadata.py`, lines 158–178). -/
def MetaData._header_values (header : Option String) : Except PyErr (List String) :=
  match header with
  | none => .ok []
  | some h => do
    let items ← decode_header h
    let values ← items.foldlM
      (fun acc (p : String × Option String) =>
        match pyDecode (p.2.getD "ascii") p.1 with
        | .ok u => .ok (acc ++ [u])
        | .error .unicodeDecodeError => .ok (acc ++ [text_to_utf8 p.1])
        | .error e => .error e)
      ([] : List String)
    .ok (values.map pyUtf8Encode)

/-- `MetaData._header_str` (`metadata.py`, lines 180–185). -/
def MetaData._header_str (header : Option String) (join_str : String) :
    Except PyErr String := do
  let vals ← MetaData._header_values header
  .ok (String.intercalate join_str vals)

/-- `re.findall(r"<.*>", s, re.MULTILINE)`: per line, the greedy match from
the first `<` to the last `>` of the line. -/
def inReplyToMatches (s : String) : List String :=
  (pySplitlines s).filterMap (fun line =>
    match line.data.findIdx? (· = '<') with
    | none => none
    | some i =>
      let rest := line.data.drop i
      match rest.reverse.findIdx? (· = '>') with
      | none => none
      | some jr => some ⟨rest.take (rest.length - jr)⟩)

/-- For `re.findall(r'for <(.*@.*)>;', s)`: the rightmost `>;` of the
`\n`-free segment whose prefix contains an `@` (greedy `.*` with
backtracking). -/
def bestTerminator (seg : List Char) : Option Nat :=
  (List.range seg.length).reverse.find? (fun j =>
    (seg.getD j ' ' == '>') && (seg.getD (j + 1) ' ' == ';') && (seg.take j).contains '@')

/-- `MetaData.re_recieved.findall`: captures of `for <(.*@.*)>;`. -/
def receivedFindall (fuel : Nat) (t : List Char) : List String :=
  match fuel with
  | 0 => []
  | fuel + 1 =>
    match pyFindSub t ['f', 'o', 'r', ' ', '<'] with
    | none => []
    | some i =>
      let after := t.drop (i + 5)
      let seg := after.takeWhile (· ≠ '\n')
      match bestTerminator seg with
      | some j => String.mk (seg.take j) :: receivedFindall fuel (after.drop (j + 2))
      | none => receivedFindall fuel (t.drop (i + 1))

/-- Python set union on string lists, preserving first-seen order. -/
def pySetUnion (a b : List String) : List String :=
  a ++ (b.filter (fun x => ¬ a.contains x)).dedup

/-- `MetaData._receivers` (`metadata.py`, lines 293–309): union of the
`to`/`cc`/`bcc` address lists and the `for <...>;` captures across the
joined `Received` headers. -/
def MetaData._receivers (m : EMessage) (toAddr cc bcc : List String) : List String :=
  let r : List String := []
  let r := if toAddr ≠ [] then pySetUnion r toAddr else r
  let r := if cc ≠ [] then pySetUnion r cc else r
  let r := if bcc ≠ [] then pySetUnion r bcc else r
  let received := pyHeaderGetAll m.headers "Received"
  if received ≠ [] then
    let joined := String.intercalate "\r\n" received
    pySetUnion r (receivedFindall (joined.length + 1) joined.data)
  else r

/-- The runtime value held by the `receivers` attribute: `None` after
`__init__`/`clear`, the set built by `_receivers` after `set_message`.
Neither value is callable. -/
inductive PyAttrVal where
  | pyNone
  | pySet (elems : List String)

/-- Calling the stored attribute with no arguments (`self.receivers()`):
neither `None` nor a `set` object is callable, so Python raises
`TypeError`. -/
def pyCallNoArgs : PyAttrVal → Except PyErr (List String)
  | _ => .error .typeError

/-- The `MetaData` fields consulted by the verified properties.  (The
date/timestamp, charset and message back-reference fields of the Python
object are set by `set_message` through stdlib date parsing but are never
read by any property verified here.) -/
structure MetaDataState where
  names : PyDict (Option String)
  message_id : Option String
  toAddr : List String
  sender : Option String
  reply_to : Option String
  cc : List String
  bcc : List String
  in_reply_to : Option String
  subject : String
  content_type : String
  receivers : PyAttrVal

/-- `MetaData.set_message` (`metadata.py`, lines 103–134), in statement
order; each `_address` call threads the `names` side table. -/
def MetaData.set_message (names0 : PyDict (Option String)) (m : EMessage) :
    Except PyErr MetaDataState := do
  let message_id := pyHeaderGet m.headers "Message-ID"
  let (n1, toAddr) ← MetaData._address names0 (pyHeaderGet m.headers "To")
  let (n2, senders) ← MetaData._address n1 (pyHeaderGet m.headers "From")
  let sender := senders.head?
  let (n3, replyTos) ← MetaData._address n2 (pyHeaderGet m.headers "Reply-To")
  let reply_to := replyTos.head?
  let (n4, cc) ← MetaData._address n3 (pyHeaderGet m.headers "Cc")
  let (n5, bcc) ← MetaData._address n4 (pyHeaderGet m.headers "Bcc")
  let in_reply_to : Option String := match pyHeaderGet m.headers "In-Reply-To" with
    | none => none
    | some v => if v = "" then some v else some ((inReplyToMatches v).headD v)
  let subject ← MetaData._header_str (pyHeaderGet m.headers "Subject") " "
  .ok ⟨n5, message_id, toAddr, sender, reply_to, cc, bcc, in_reply_to, subject,
    m.get_content_type, PyAttrVal.pySet (MetaData._receivers m toAddr cc bcc)⟩

/-- The `addresses` property (`metadata.py`, lines 90–101).  Note that
`result.update(set(self.reply_to))` iterates the characters of the stored
reply-to string, and `result.update(self.receivers())` calls the stored
set. -/
def MetaData.addresses (st : MetaDataState) : Except PyErr (List String) := do
  let r0 : List String := []
  let r1 := match st.sender with
    | some s => if s ≠ "" then pySetUnion r0 [s] else r0
    | none => r0
  let r2 := match st.reply_to with
    | some s => if s ≠ "" then pySetUnion r1 (s.data.map (fun c => String.mk [c])) else r1
    | none => r1
  let recs ← pyCallNoArgs st.receivers
  .ok (pySetUnion r2 recs)

/-! ### `Parser` (`parser.py`) -/

/-- `posixpath.normpath` (Python 2). -/
def posixNormpath (p : String) : String :=
  if p = "" then "."
  else
    let initialSlashes : Nat :=
      if pyStartsWith p "/" then
        if pyStartsWith p "//" ∧ ¬ pyStartsWith p "///" then 2 else 1
      else 0
    let newComps := (pySplitOnChar p '/').foldl
      (fun acc comp =>
        if comp = "" ∨ comp = "." then acc
        else if comp ≠ ".." ∨ (initialSlashes = 0 ∧ acc = []) ∨ acc.getLast? = some ".." then
          acc ++ [comp]
        else acc.dropLast)
      []
    let path := String.mk (List.replicate initialSlashes '/') ++ String.intercalate "/" newComps
    if path = "" then "." else path

/-- `posixpath.basename`. -/
def posixBasename (p : String) : String :=
  ⟨(p.data.reverse.takeWhile (· ≠ '/')).reverse⟩

/-- `posixpath.dirname`. -/
def posixDirname (p : String) : String :=
  let head := p.data.take (p.data.length - (p.data.reverse.takeWhile (· ≠ '/')).length)
  if head ≠ [] ∧ head.any (· ≠ '/') then
    ⟨(head.reverse.dropWhile (· = '/')).reverse⟩
  else ⟨head⟩

/-- `posixpath.join` for two components. -/
def posixJoin (a b : String) : String :=
  if pyStartsWith b "/" then b
  else if a = "" ∨ pyEndsWith a "/" then a ++ b
  else a ++ "/" ++ b

/-- The `.path` component of `urlparse.urlparse(url)` (Python 2): drop the
fragment at the first `#`, a `scheme:` prefix whose name starts with a
letter and uses only alphanumerics/`+`/`-`/`.`, a `//netloc` up to the next
`/`, `?` or `#`, and the query from the first `?`. -/
def urlparsePath (url : String) : String :=
  let noFrag : List Char := url.data.takeWhile (· ≠ '#')
  let afterScheme : List Char :=
    match noFrag.findIdx? (· = ':') with
    | some i =>
      let schemeChars := noFrag.take i
      if schemeChars ≠ [] ∧ (schemeChars.headD ' ').isAlpha ∧
          schemeChars.all (fun c => c.isAlphanum ∨ c = '+' ∨ c = '-' ∨ c = '.') then
        noFrag.drop (i + 1)
      else noFrag
    | none => noFrag
  let afterNetloc : List Char :=
    match afterScheme with
    | '/' :: '/' :: rest => rest.dropWhile (fun c => c ≠ '/' ∧ c ≠ '?' ∧ c ≠ '#')
    | l => l
  ⟨afterNetloc.takeWhile (· ≠ '?')⟩

/-- `mimetypes.guess_extension`, embedded for the mimetypes arising in
OneNote MHT archives (values as returned by Python 2); any other type gives
`None`, which `Parser.run`'s `in ['.htm', '.xml']` test treats as
non-structural. -/
def guess_extension (mimetype : String) : Option String :=
  if mimetype = "text/html" then some ".htm"
  else if mimetype = "text/xml" then some ".xml"
  else if mimetype = "image/png" then some ".png"
  else if mimetype = "image/jpeg" then some ".jpe"
  else if mimetype = "image/gif" then some ".gif"
  else if mimetype = "image/x-ms-bmp" then some ".bmp"
  else if mimetype = "image/tiff" then some ".tiff"
  else if mimetype = "text/plain" then some ".txt"
  else if mimetype = "application/octet-stream" then some ".obj"
  else none

/-- One `file_map` record: the eventual media filename, the
`NamedTemporaryFile` path holding the bytes, and the bytes written. -/
structure FileEntry where
  filename : String
  tmpPath : String
  content : PyStr

/-- Name of the `k`-th `NamedTemporaryFile(suffix=filename, delete=False)`
created in a run. -/
def tmpName (k : Nat) (suffix : String) : String :=
  "/tmp/tmp" ++ toString k ++ suffix

/-- One iteration of the asset loop of `Parser.run` (`parser.py`, lines
26–54): skip structural extensions, derive the canonical path from the
part's `Content-Location`, then first-write-wins insert. -/
def Parser.processAttachment (dateHash : String) (fm : PyDict FileEntry)
    (it : ExtractItem) : Except PyErr (PyDict FileEntry) :=
  let skip : Bool := match guess_extension it.mimetype with
    | some e => e = ".htm" ∨ e = ".xml"
    | none => false
  if skip then .ok fm
  else
    match pyHeaderGet it.part.headers "Content-Location" with
    | none => .error .attributeError
    | some url =>
      let path := posixNormpath (urlparsePath url)
      let filename := dateHash ++ posixBasename path
      if (pyDictLookup fm path).isSome then .ok fm
      else .ok (fm ++ [(path, ⟨filename, tmpName fm.length filename, it.content⟩)])

/-- The asset-extraction phase of `Parser.run`: fold the attachment
sequence into `self.file_map`. -/
def Parser.buildFileMap (dateHash : String) (atts : List ExtractItem) :
    Except PyErr (PyDict FileEntry) :=
  atts.foldlM (Parser.processAttachment dateHash) []

/-- A parsed HTML tree: the BeautifulSoup view consumed by `Parser.run`. -/
inductive Html where
  | tag (name : String) (attrs : List (String × String)) (children : List Html)
  | text (s : String)

def Html.isTag : Html → Bool
  | .tag _ _ _ => true
  | .text _ => false

mutual
/-- Preorder (document-order) listing of a node and its descendants. -/
def htmlNodes : Html → List Html
  | .tag n a cs => .tag n a cs :: htmlNodesList cs
  | .text s => [.text s]

def htmlNodesList : List Html → List Html
  | [] => []
  | h :: t => htmlNodes h ++ htmlNodesList t
end

/-- `soup.findAll(name)` over a document given as its top-level nodes. -/
def findAllTags (name : String) (nodes : List Html) : List Html :=
  (htmlNodesList nodes).filter (fun h => match h with
    | .tag n _ _ => n = name
    | .text _ => false)

def attrsGet (a : List (String × String)) (k : String) : Option String :=
  (a.find? (fun kv => kv.1 == k)).map Prod.snd

/-- `tag[k] = v`: replace the attribute in place, else append it. -/
def attrsSet (a : List (String × String)) (k v : String) : List (String × String) :=
  if (a.find? (fun kv => kv.1 == k)).isSome then
    a.map (fun kv => if kv.1 == k then (kv.1, v) else kv)
  else a ++ [(k, v)]

/-- `Parser._get_absolute_path_from_relative_path` (lines 77–78). -/
def Parser._get_absolute_path_from_relative_path (root relative_path : String) : String :=
  posixJoin root relative_path

/-- The per-image body of the rewrite loop (`parser.py`, lines 57–65): a
missing `src` is a `TypeError` inside `os.path.join(root, None)`; a
`file_map` miss is an `AttributeError` (`None.get('filename')`). -/
def Parser.rewriteImg (fm : PyDict FileEntry) (root : String)
    (attrs : List (String × String)) : Except PyErr (List (String × String)) :=
  match attrsGet attrs "src" with
  | none => .error .typeError
  | some src =>
    let path := posixNormpath (Parser._get_absolute_path_from_relative_path root src)
    match pyDictLookup fm path with
    | none => .error .attributeError
    | some e =>
      .ok (attrsSet (attrsSet (attrsSet attrs "src" e.filename) "width" "auto") "height" "auto")

mutual
/-- The image-rewrite phase (`for img in self.soup.findAll('img')`) over the
parsed tree, visiting images in document order. -/
def Parser.rewriteNode (fm : PyDict FileEntry) (root : String) : Html → Except PyErr Html
  | .text s => .ok (.text s)
  | .tag n a cs => do
    let a' ← if n = "img" then Parser.rewriteImg fm root a else .ok a
    let cs' ← Parser.rewriteList fm root cs
    .ok (.tag n a' cs')

def Parser.rewriteList (fm : PyDict FileEntry) (root : String) :
    List Html → Except PyErr (List Html)
  | [] => .ok []
  | h :: t => do
    let h' ← Parser.rewriteNode fm root h
    let t' ← Parser.rewriteList fm root t
    .ok (h' :: t')
end

mutual
/-- Serialization of a node, as BeautifulSoup renders it. -/
def renderNode : Html → String
  | .text s => s
  | .tag n a cs =>
    "<" ++ n ++ String.join (a.map (fun kv => " " ++ kv.1 ++ "=\x22" ++ kv.2 ++ "\x22")) ++
      ">" ++ renderList cs ++ "</" ++ n ++ ">"

def renderList : List Html → String
  | [] => ""
  | h :: t => renderNode h ++ renderList t
end

/-- `Tag.renderContents()`: the serialized children. -/
def renderContents : Html → String
  | .tag _ _ cs => renderList cs
  | .text s => s

/-- `Parser._strip_newlines` (lines 80–81):
`string.replace('\n', '').replace('\r', '')`. -/
def Parser._strip_newlines (s : String) : String :=
  ⟨(s.data.filter (· ≠ '\n')).filter (· ≠ '\x0d')⟩

/-- `row.findAll(recursive=False, limit=2)` matches the first two direct
child tags of any name (no tag-name criterion is passed). -/
def directChildTags : Html → List Html
  | .tag _ _ cs => cs.filter Html.isTag
  | .text _ => []

/-- One row of the table loop of `Parser.run` (lines 70–74): `tds[0]` and
`tds[1]` raise `IndexError` when the row has fewer than two direct child
tags. -/
def Parser.processRow (row : Html) : Except PyErr String :=
  match (directChildTags row).take 2 with
  | t0 :: t1 :: _ =>
    .ok (Parser._strip_newlines (renderContents t0) ++ "\t" ++
      Parser._strip_newlines (renderContents t1) ++ "\n")
  | _ => .error .indexError

/-- The `output += '%s\t%s\n' % ...` accumulation over all rows. -/
def Parser.processRows (rows : List Html) : Except PyErr String :=
  rows.foldlM (fun acc r => (Parser.processRow r).map (acc ++ ·)) ""

/-- `soup.find('table')`: the first table tag in document order. -/
def findFirstTable (nodes : List Html) : Option Html :=
  (findAllTags "table" nodes).head?

/-- `table.findAll('tr')`: all row tags among the table's descendants. -/
def tableRows (table : Html) : List Html :=
  match table with
  | .tag _ _ cs => findAllTags "tr" cs
  | .text _ => []

/-- `Parser.__init__` lines 17–19: the resource root is the directory of
the URL-path of the root part's `Content-Location`. -/
def Parser.initRoot (content_location : String) : String :=
  posixDirname (urlparsePath content_location)

/-- `Parser.run` (`parser.py`, lines 24–75): build the asset map from the
attachment walk, rewrite every image, then serialize the first table's rows
as tab-separated lines.  `soup` is the parsed document (its top-level
nodes); `dateHash` is the per-run timestamp prefix; a missing table is the
`AttributeError` of `None.findAll`. -/
def Parser.run (dateHash root : String) (msg : EMessage) (soup : List Html) :
    Except PyErr String := do
  let atts ← Attachment.extract false msg
  let fm ← Parser.buildFileMap dateHash atts
  let soup' ← Parser.rewriteList fm root soup
  match findFirstTable soup' with
  | none => .error .attributeError
  | some table => Parser.processRows (tableRows table)

/-! ### Claims -/

/-- C8: for every leaf part whose `Content-Transfer-Encoding` (stripped)
equals `quoted-printable`, the Content Decoder decodes the raw payload with
a quoted-printable codec — in particular the body `"Caf=C3=A9"` decodes to
the UTF-8 byte sequence for `"Café"` — and for every other transfer
encoding it returns the part's self-declared decoded payload
(`get_payload(decode=True)`) unchanged, performing no charset decoding. -/
theorem c8_decode_content_quoted_printable :
    (∀ hs e b, pyHeaderGet hs "Content-Transfer-Encoding" = some e → e ≠ "" →
      pyStrip e = "quoted-printable" →
      Text.decode_content hs (.bytes b) = .ok (.bytes (qpDecode b)))
    ∧ Text.decode_content [("Content-Transfer-Encoding", "quoted-printable")]
        (.bytes "Caf=C3=A9") = .ok (.bytes (pyUtf8Encode "Café"))
    ∧ (∀ hs p, (match pyHeaderGet hs "Content-Transfer-Encoding" with
        | some e => e = "" ∨ pyStrip e ≠ "quoted-printable"
        | none => True) →
      Text.decode_content hs p = get_payload_decode hs p) := by
  refine ⟨?_, ?_, ?_⟩
  · intro hs e b hget hne hqp
    simp [Text.decode_content, hget, hne, hqp, cstringBytes]
    rfl
  · rfl
  · intro hs p hcond
    rw [Text.decode_content]
    cases hh : pyHeaderGet hs "Content-Transfer-Encoding" with
    | none => rfl
    | some e =>
      rw [hh] at hcond
      have hneg : ¬(e ≠ "" ∧ pyStrip e = "quoted-printable") := by
        rintro ⟨h1, h2⟩
        rcases hcond with hc | hc
        · exact h1 hc
        · exact hc h2
      simp [hneg]

theorem c8_witness :
    Text.decode_content [("Content-Transfer-Encoding", " quoted-printable ")] (.bytes "=41")
      = .ok (.bytes (qpDecode "=41")) :=
  c8_decode_content_quoted_printable.1 _ " quoted-printable " "=41" rfl (by decide) (by decide)

theorem exceptBindOk {ε α β : Type} (a : α) (f : α → Except ε β) :
    (Except.ok a >>= f : Except ε β) = f a := rfl

theorem exceptBindErr {ε α β : Type} (e : ε) (f : α → Except ε β) :
    ((Except.error e : Except ε α) >>= f) = .error e := rfl

theorem exceptPureEq {ε α : Type} (a : α) : (pure a : Except ε α) = .ok a := rfl

theorem stringAppendEmpty (s : String) : s ++ "" = s := by
  cases s
  show String.mk _ = _
  simp [String.append]

/-- C7 counterexample: on the encoded-word-free header value `" a.txt "`
the Token Decoder returns the stripped `"a.txt"`, not the input — it is not
the identity on inputs with leading or trailing whitespace. -/
theorem c7_counterexample :
    Attachment.decode_filename (some " a.txt ") = .ok (some "a.txt")
      ∧ (" a.txt " : String) ≠ "a.txt" := by
  exact ⟨rfl, by decide⟩

/-- C7 (amended): on header values with no RFC 2047 encoded words the Token
Decoder returns the input stripped of leading/trailing whitespace when the
input is pure ASCII, and the input unchanged when it contains a non-ASCII
byte (the `u"".join` coercion fails and the fallback returns the original);
it is thus the identity exactly on inputs without stripping-relevant
whitespace. -/
theorem c7_token_decoder_no_encoded_words (s : String)
    (hew : hasEncodedWord s = false) :
    Attachment.decode_filename (some s)
      = .ok (some (if pyAllAscii s then pyStrip s else s)) := by
  have hdh : decode_header s = .ok [(s, none)] := by
    rw [decode_header, if_pos (by simp [hew])]
  by_cases hempty : s = ""
  · subst hempty; rfl
  · simp only [Attachment.decode_filename, if_neg hempty]
    rw [hdh]
    by_cases hasc : pyAllAscii s
    · simp [exceptBindOk, exceptPureEq, List.mapM.loop, dfDecodePiece,
        pyUJoin, pyAsciiDecode, hasc, stringAppendEmpty, Except.map]
    · simp [exceptBindOk, exceptBindErr, exceptPureEq, List.mapM.loop,
        dfDecodePiece, pyUJoin, pyAsciiDecode, hasc, Except.map]

theorem c7_witness :
    Attachment.decode_filename (some "img1.png")
      = .ok (some (if pyAllAscii "img1.png" then pyStrip "img1.png" else "img1.png")) :=
  c7_token_decoder_no_encoded_words "img1.png" (by decide)

theorem extractList_append (f : Bool) (xs ys : List EMessage) :
    extractList f (xs ++ ys) = (do
      let a ← extractList f xs
      let b ← extractList f ys
      pure (a ++ b)) := by
  induction xs with
  | nil =>
    show extractList f ys = _
    cases extractList f ys <;> simp [extractList, exceptBindOk, exceptBindErr, exceptPureEq]
  | cons x t ih =>
    show extractList f (x :: (t ++ ys)) = _
    rw [extractList, ih, extractList]
    cases processChild f x <;> cases extractList f t <;> cases extractList f ys <;>
      simp [exceptBindOk, exceptBindErr, exceptPureEq]

theorem decodeCandidate_part {att : EMessage} {item : ExtractItem}
    (h : decodeCandidate att = .ok item) : item.part = att ∧
      item.mimetype = att.get_content_type := by
  cases att with
  | leaf hs b =>
    rw [decodeCandidate] at h
    cases hc : Text.decode_content hs b with
    | ok c =>
      rw [hc] at h
      cases hf : Attachment.decode_filename (EMessage.leaf hs b).get_filename with
      | ok fn =>
        rw [hf] at h
        cases h
        exact ⟨rfl, rfl⟩
      | error e => rw [hf] at h; cases h
    | error e => rw [hc] at h; cases h
  | multi hs parts =>
    rw [decodeCandidate] at h
    cases hf : Attachment.decode_filename (EMessage.multi hs parts).get_filename with
    | ok fn =>
      rw [hf] at h
      cases h
      exact ⟨rfl, rfl⟩
    | error e => rw [hf] at h; cases h

/-- C5: a candidate leaf whose content decoding raises a
`UnicodeDecodeError` or `UnicodeEncodeError` is silently omitted from the
yielded attachment sequence and the walk continues: the extraction result
with the failing leaf among the children equals the one without it, so
every preceding and subsequent decodable attachment is still yielded and no
such failure aborts the walk or surfaces to the caller. -/
theorem c5_unicode_failure_skipped (f : Bool) (hs bh : List (String × String))
    (pre post : List EMessage) (bb : PyStr) (e : PyErr)
    (hfail : Text.decode_content bh bb = .error e) (hue : e.isUnicode = true) :
    Attachment.extract f (.multi hs (pre ++ .leaf bh bb :: post))
      = Attachment.extract f (.multi hs (pre ++ post)) := by
  have hdc : decodeCandidate (.leaf bh bb) = .error e := by
    rw [decodeCandidate]
    simp [hfail, exceptBindErr]
  have hchild : processChild f (.leaf bh bb) = .ok [] := by
    rw [processChild]
    simp only [EMessage.is_multipart, Bool.false_and, Bool.false_eq_true, if_false]
    by_cases hpass : passesFilenameFilter f (.leaf bh bb)
    · rw [if_pos hpass, hdc]
      simp [hue]
    · rw [if_neg hpass]
  have hmid : extractList f (.leaf bh bb :: post) = extractList f post := by
    rw [extractList, hchild]
    cases extractList f post <;> simp [exceptBindOk, exceptBindErr, exceptPureEq]
  rw [Attachment.extract, Attachment.extract, extractList_append, extractList_append, hmid]

def c5good1 : EMessage := .leaf [("Content-Type", "text/plain")] (.bytes "q1")

def c5good2 : EMessage := .leaf [("Content-Type", "text/plain")] (.bytes "q2")

def c5bad : EMessage := .leaf [("Content-Transfer-Encoding", "quoted-printable")] (.uni "é")

theorem c5_witness :
    Attachment.extract false
        (.multi [("Content-Type", "multipart/related")] ([c5good1] ++ c5bad :: [c5good2]))
      = Attachment.extract false
        (.multi [("Content-Type", "multipart/related")] ([c5good1] ++ [c5good2])) :=
  c5_unicode_failure_skipped false _ _ [c5good1] [c5good2] (.uni "é")
    .unicodeEncodeError rfl rfl

/-- The branch condition of the walker: a multipart part of subtype
`alternative`. -/
def isAltMultipart (m : EMessage) : Bool :=
  m.is_multipart && m.get_content_type == "multipart/alternative"

theorem extract_no_alt_aux (f : Bool) (n : Nat) :
    (∀ m l, sizeOf m ≤ n → Attachment.extract f m = .ok l →
        ∀ it ∈ l, isAltMultipart it.part = false)
      ∧ (∀ parts l, sizeOf parts ≤ n → extractList f parts = .ok l →
        ∀ it ∈ l, isAltMultipart it.part = false) := by
  induction n using Nat.strong_induction_on with
  | _ n ih =>
    constructor
    · intro m l hsz hex it hit
      cases m with
      | leaf mh mb =>
        rw [Attachment.extract] at hex
        cases hex
        simp at hit
      | multi mh parts =>
        rw [Attachment.extract] at hex
        have hlt : sizeOf parts < n := by
          have hspec : sizeOf (EMessage.multi mh parts) = 1 + sizeOf mh + sizeOf parts := by
            simp
          omega
        exact (ih (sizeOf parts) hlt).2 parts l (le_refl _) hex it hit
    · intro parts l hsz hex it hit
      cases parts with
      | nil =>
        rw [extractList] at hex
        cases hex
        simp at hit
      | cons a rest =>
        have hsza : sizeOf a < n := by
          have hspec : sizeOf (a :: rest) = 1 + sizeOf a + sizeOf rest := by simp
          omega
        have hszr : sizeOf rest < n := by
          have hspec : sizeOf (a :: rest) = 1 + sizeOf a + sizeOf rest := by simp
          have : 0 < sizeOf a := by cases a <;> simp
          omega
        rw [extractList] at hex
        cases hpc : processChild f a with
        | error e => rw [hpc] at hex; simp [exceptBindErr] at hex
        | ok items =>
          rw [hpc] at hex
          cases hrest : extractList f rest with
          | error e => rw [hrest] at hex; simp [exceptBindOk, exceptBindErr] at hex
          | ok more =>
            rw [hrest] at hex
            simp only [exceptBindOk, exceptPureEq] at hex
            have hl : l = items ++ more := by
              cases hex
              rfl
            subst hl
            rcases List.mem_append.mp hit with hmem | hmem
            · rw [processChild] at hpc
              by_cases halt : (a.is_multipart && a.get_content_type == "multipart/alternative") = true
              · rw [if_pos halt] at hpc
                exact (ih (sizeOf a) hsza).1 a items (le_refl _) hpc it hmem
              · rw [if_neg halt] at hpc
                by_cases hpass : passesFilenameFilter f a
                · rw [if_pos hpass] at hpc
                  cases hdc : decodeCandidate a with
                  | ok item0 =>
                    rw [hdc] at hpc
                    cases hpc
                    have hpart := (decodeCandidate_part hdc).1
                    have hiteq : it = item0 := by simpa using hmem
                    rw [hiteq, hpart]
                    simp only [isAltMultipart]
                    exact Bool.eq_false_iff.mpr halt
                  | error e =>
                    rw [hdc] at hpc
                    by_cases hu : e.isUnicode = true
                    · simp [hu] at hpc
                      subst hpc
                      simp at hmem
                    · simp [hu] at hpc
                · rw [if_neg hpass] at hpc
                  cases hpc
                  simp at hmem
            · exact (ih (sizeOf rest) hszr).2 rest more (le_refl _) hrest it hmem

/-- C3 (amended): in the MIME Tree Walker, a `multipart/alternative` child
is expanded transparently (its own attachments are re-yielded in place and
no yielded item's part is ever an alternative-multipart wrapper, at any
depth); a multipart child of any other subtype is never flattened — but it
is not dropped either: it is yielded itself as a single opaque candidate
(its content being the part's string serialization), subject to the
filename filter. -/
theorem c3_walker_multipart_children (f : Bool) (hs dh2 : List (String × String))
    (pre post dparts : List EMessage) (c : EMessage) (fn : Option String)
    (hc : isAltMultipart c = true)
    (hd2 : (EMessage.multi dh2 dparts).get_content_type ≠ "multipart/alternative")
    (hdf : Attachment.decode_filename (EMessage.multi dh2 dparts).get_filename = .ok fn) :
    Attachment.extract f (.multi hs (pre ++ c :: post)) = (do
        let a ← Attachment.extract f (.multi hs pre)
        let b ← Attachment.extract f c
        let m ← Attachment.extract f (.multi hs post)
        pure (a ++ b ++ m))
    ∧ Attachment.extract false (.multi hs (pre ++ .multi dh2 dparts :: post)) = (do
        let a ← Attachment.extract false (.multi hs pre)
        let m ← Attachment.extract false (.multi hs post)
        pure (a ++ ⟨.bytes (msgToString (.multi dh2 dparts)), fn,
          (EMessage.multi dh2 dparts).get_content_type, .multi dh2 dparts⟩ :: m))
    ∧ (∀ m l, Attachment.extract f m = .ok l → ∀ it ∈ l,
        ¬(it.part.is_multipart = true ∧ it.part.get_content_type = "multipart/alternative")) := by
  refine ⟨?_, ?_, ?_⟩
  · have hpc : processChild f c = Attachment.extract f c := by
      rw [processChild]
      rw [isAltMultipart] at hc
      rw [if_pos hc]
    simp only [Attachment.extract]
    rw [extractList_append, extractList, hpc]
    cases extractList f pre <;> cases Attachment.extract f c <;> cases extractList f post <;>
      simp [exceptBindOk, exceptBindErr, exceptPureEq, List.append_assoc]
  · have hdc : decodeCandidate (.multi dh2 dparts)
        = .ok ⟨.bytes (msgToString (.multi dh2 dparts)), fn,
          (EMessage.multi dh2 dparts).get_content_type, .multi dh2 dparts⟩ := by
      rw [decodeCandidate]
      simp [hdf, exceptBindOk, exceptPureEq]
    have hpc : processChild false (.multi dh2 dparts)
        = .ok [⟨.bytes (msgToString (.multi dh2 dparts)), fn,
          (EMessage.multi dh2 dparts).get_content_type, .multi dh2 dparts⟩] := by
      rw [processChild]
      rw [if_neg (by simp [hd2]), if_pos (by simp [passesFilenameFilter]), hdc]
    simp only [Attachment.extract]
    rw [extractList_append, extractList, hpc]
    cases extractList false pre <;> cases extractList false post <;>
      simp [exceptBindOk, exceptBindErr, exceptPureEq]
  · intro m l hex it hit
    have := (extract_no_alt_aux f (sizeOf m)).1 m l (le_refl _) hex it hit
    rw [isAltMultipart] at this
    rintro ⟨h1, h2⟩
    rw [h1, h2] at this
    simp at this

def c3child : EMessage :=
  .multi [("Content-Type", "multipart/mixed")]
    [.leaf [("Content-Type", "text/plain")] (.bytes "hi")]

def c3msg : EMessage :=
  .multi [("Content-Type", "multipart/related")] [c3child]

/-- C3 counterexample: a `multipart/mixed` child of a walked multipart
message *does* appear as an attachment in the yielded sequence (with the
filename filter disabled) — the claim's "never appears as an attachment"
is false for non-alternative multipart children. -/
theorem c3_counterexample :
    (Attachment.extract false c3msg).map (List.map ExtractItem.part) = .ok [c3child]
      ∧ c3child.is_multipart = true
      ∧ c3child.get_content_type = "multipart/mixed" := by
  have hdc : decodeCandidate c3child
      = .ok ⟨.bytes (msgToString c3child), none, "multipart/mixed", c3child⟩ := rfl
  have h1 : processChild false c3child
      = .ok [⟨.bytes (msgToString c3child), none, "multipart/mixed", c3child⟩] := by
    rw [processChild, if_neg (by decide), if_pos (by decide), hdc]
  have h2 : Attachment.extract false c3msg
      = .ok [⟨.bytes (msgToString c3child), none, "multipart/mixed", c3child⟩] := by
    show Attachment.extract false (.multi [("Content-Type", "multipart/related")] [c3child]) = _
    rw [Attachment.extract, extractList, h1, extractList]
    rfl
  refine ⟨?_, rfl, by decide⟩
  rw [h2]
  rfl

def c3altwit : EMessage :=
  .multi [("Content-Type", "multipart/alternative")]
    [.leaf [("Content-Type", "text/plain")] (.bytes "inner")]

theorem c3_witness :
    (Attachment.extract false (.multi [("Content-Type", "multipart/related")]
        ([] ++ c3altwit :: [])) = (do
      let a ← Attachment.extract false (.multi [("Content-Type", "multipart/related")] [])
      let b ← Attachment.extract false c3altwit
      let m ← Attachment.extract false (.multi [("Content-Type", "multipart/related")] [])
      pure (a ++ b ++ m)))
    ∧ (Attachment.extract false (.multi [("Content-Type", "multipart/related")]
        ([] ++ (.multi [("Content-Type", "multipart/mixed")]
          [.leaf [("Content-Type", "text/plain")] (.bytes "hi")]) :: [])) = (do
      let a ← Attachment.extract false (.multi [("Content-Type", "multipart/related")] [])
      let m ← Attachment.extract false (.multi [("Content-Type", "multipart/related")] [])
      pure (a ++ ⟨.bytes (msgToString (.multi [("Content-Type", "multipart/mixed")]
          [.leaf [("Content-Type", "text/plain")] (.bytes "hi")])), none,
        (EMessage.multi [("Content-Type", "multipart/mixed")]
          [.leaf [("Content-Type", "text/plain")] (.bytes "hi")]).get_content_type,
        .multi [("Content-Type", "multipart/mixed")]
          [.leaf [("Content-Type", "text/plain")] (.bytes "hi")]⟩ :: m)))
    ∧ (∀ m l, Attachment.extract false m = .ok l → ∀ it ∈ l,
        ¬(it.part.is_multipart = true ∧ it.part.get_content_type = "multipart/alternative")) :=
  c3_walker_multipart_children false [("Content-Type", "multipart/related")]
    [("Content-Type", "multipart/mixed")] [] []
    [.leaf [("Content-Type", "text/plain")] (.bytes "hi")] c3altwit none
    rfl (by decide) rfl


/-- C4 counterexample: in the single header value `"John <j@x.com>, j@x.com"`
the first name seen for `j@x.com` is `"John"`, but the later occurrence of
the same address without a name overwrites the entry with `None`
(`result[address] = name or None`): the recorded name is erased, falsifying
"the name recorded is the first name seen" and "a later occurrence without
a name does not erase an already-recorded name". -/
theorem c4_counterexample :
    (MetaData._address [] (some "John <j@x.com>, j@x.com")).map
        (fun r => pyDictLookup r.1 "j@x.com") = .ok (some none)
    ∧ (MetaData._address [] (some "John <j@x.com>, j@x.com")).map
        (fun r => pyDictLookup r.1 "j@x.com") ≠ .ok (some (some "John")) := by
  have h1 : (MetaData._address [] (some "John <j@x.com>, j@x.com")).map
      (fun r => pyDictLookup r.1 "j@x.com") = .ok (some none) := rfl
  refine ⟨h1, ?_⟩
  rw [h1]
  intro hcontra
  simp at hcontra

/-- C4 (amended): the Address Resolver's returned address list has no
duplicates and is sorted (bytewise lexicographic order); but the name it
records for an address is the one from the **last** parse of that address —
each loop iteration runs `result[address] = name or None`, so lookup in the
dict built from the loop's ordered assignments equals the last assignment
for that key, and `names.update(result)` then gives that entry precedence
over anything recorded earlier (a later nameless occurrence therefore does
erase a recorded name, within a header and across headers). -/
theorem c4_address_resolver :
    (∀ (names : PyDict (Option String)) (hv : Option String)
        (nm' : PyDict (Option String)) (l : List String),
      MetaData._address names hv = .ok (nm', l) →
        l.Nodup ∧ List.Sorted (fun a b => pyStrLe a b = true) l)
    ∧ (∀ (asg : List (String × Option String)) (d : PyDict (Option String)) (a : String),
        pyDictLookup (asg.foldl pyDictSet d) a
          = match (asg.filter (fun q => q.1 == a)).getLast? with
            | some q => some q.2
            | none => pyDictLookup d a) := by
  constructor
  · intro names hv nm' l hok
    cases hv with
    | none =>
      rw [MetaData._address] at hok
      cases hok
      exact ⟨List.nodup_nil, List.sorted_nil⟩
    | some hv0 =>
      by_cases h0 : hv0 = ""
      · simp only [MetaData._address] at hok
        rw [if_pos h0] at hok
        cases hok
        exact ⟨List.nodup_nil, List.sorted_nil⟩
      · simp only [MetaData._address] at hok
        rw [if_neg h0] at hok
        simp only [bind, Except.bind] at hok
        split at hok
        · simp at hok
        · split at hok
          · simp at hok
          · split at hok
            · simp at hok
            · cases hok
              refine ⟨?_, pySorted_sorted _⟩
              apply pySorted_nodup
              apply List.Nodup.map pyUtf8Encode_inj
              apply pyDictFold_keys_nodup
              simp [pyDictKeys]
  · intro asg d a
    exact pyDictLookup_foldl asg d a

theorem c4_witness :
    (["jane@example.com", "john@example.com"] : List String).Nodup
    ∧ List.Sorted (fun a b => pyStrLe a b = true)
        ["jane@example.com", "john@example.com"] :=
  c4_address_resolver.1 []
    (some "=?UTF-8?B?Sm9obg==?= <john@example.com>, jane@example.com")
    [("john@example.com", some "John"), ("jane@example.com", none)]
    ["jane@example.com", "john@example.com"] rfl

/-- The canonical path and the (filename, content) data an attachment
contributes to the asset map, `none` for skipped structural attachments
(and for the error case of a missing `Content-Location`, which aborts the
build instead). -/
def candRecord (dateHash : String) (it : ExtractItem) : Option (String × (String × PyStr)) :=
  let skip : Bool := match guess_extension it.mimetype with
    | some e => e = ".htm" ∨ e = ".xml"
    | none => false
  if skip then none
  else match pyHeaderGet it.part.headers "Content-Location" with
    | none => none
    | some url =>
      let path := posixNormpath (urlparsePath url)
      some (path, (dateHash ++ posixBasename path, it.content))

theorem candRecord_filename {dh : String} {it : ExtractItem} {x : String × (String × PyStr)}
    (h : candRecord dh it = some x) : x.2.1 = dh ++ posixBasename x.1 := by
  rw [candRecord] at h
  split at h
  · cases h
  · split at h
    · cases h
    · cases h
      rfl

theorem pyDictLookup_none_keys {α : Type} (d : PyDict α) (p : String)
    (h : pyDictLookup d p = none) : p ∉ pyDictKeys d := by
  intro hmem
  obtain ⟨kv, hkv, he⟩ := List.mem_map.mp hmem
  rw [pyDictLookup] at h
  cases hf : d.find? (fun q => q.1 == p) with
  | some q => rw [hf] at h; cases h
  | none =>
    rw [List.find?_eq_none] at hf
    exact absurd (by simp [he]) (hf kv hkv)

theorem buildFileMap_invariant (dh : String) (atts : List ExtractItem) :
    ∀ (acc fm : PyDict FileEntry),
      atts.foldlM (Parser.processAttachment dh) acc = .ok fm →
    (∀ p, ((pyDictLookup fm p).map (fun e => (e.filename, e.content)))
        = match pyDictLookup acc p with
          | some e => some (e.filename, e.content)
          | none => ((atts.filterMap (candRecord dh)).find? (fun q => q.1 == p)).map Prod.snd)
    ∧ ((pyDictKeys acc).Nodup → (pyDictKeys fm).Nodup) := by
  induction atts with
  | nil =>
    intro acc fm h
    rw [List.foldlM_nil] at h
    cases h
    constructor
    · intro p
      cases pyDictLookup acc p <;> rfl
    · exact id
  | cons it rest ih =>
    intro acc fm h
    rw [List.foldlM_cons] at h
    cases hpa : Parser.processAttachment dh acc it with
    | error e => rw [hpa] at h; simp [exceptBindErr] at h
    | ok acc' =>
      rw [hpa] at h
      simp only [exceptBindOk] at h
      obtain ⟨hlook, hnod⟩ := ih acc' fm h
      rw [Parser.processAttachment] at hpa
      by_cases hskip : (match guess_extension it.mimetype with
          | some e => decide (e = ".htm" ∨ e = ".xml")
          | none => false) = true
      · rw [if_pos hskip] at hpa
        cases hpa
        have hcand : candRecord dh it = none := by
          rw [candRecord, if_pos hskip]
        constructor
        · intro p
          rw [hlook, List.filterMap_cons, hcand]
        · exact hnod
      · rw [if_neg hskip] at hpa
        cases hcl : pyHeaderGet it.part.headers "Content-Location" with
        | none => rw [hcl] at hpa; cases hpa
        | some url =>
          rw [hcl] at hpa
          replace hpa : (if (pyDictLookup acc (posixNormpath (urlparsePath url))).isSome = true
              then Except.ok acc
              else (Except.ok (acc ++ [(posixNormpath (urlparsePath url),
                ⟨dh ++ posixBasename (posixNormpath (urlparsePath url)),
                 tmpName acc.length (dh ++ posixBasename (posixNormpath (urlparsePath url))),
                 it.content⟩)]) : Except PyErr (PyDict FileEntry))) = Except.ok acc' := hpa
          have hcand : candRecord dh it
              = some (posixNormpath (urlparsePath url),
                  (dh ++ posixBasename (posixNormpath (urlparsePath url)), it.content)) := by
            rw [candRecord, if_neg hskip, hcl]
          by_cases hseen : (pyDictLookup acc (posixNormpath (urlparsePath url))).isSome = true
          · rw [if_pos hseen] at hpa
            cases hpa
            constructor
            · intro p
              rw [hlook, List.filterMap_cons, hcand]
              by_cases hpp : p = posixNormpath (urlparsePath url)
              · subst hpp
                obtain ⟨e0, he0⟩ := Option.isSome_iff_exists.mp hseen
                rw [he0]
              · rw [List.find?_cons_of_neg _ (by simpa using fun hcontra => hpp (Eq.symm hcontra))]
            · exact hnod
          · rw [if_neg hseen] at hpa
            cases hpa
            have hnonepath : pyDictLookup acc (posixNormpath (urlparsePath url)) = none := by
              cases hx : pyDictLookup acc (posixNormpath (urlparsePath url)) with
              | none => rfl
              | some e0 => rw [hx] at hseen; simp at hseen
            constructor
            · intro p
              rw [hlook, List.filterMap_cons, hcand, pyDictLookup_append_single]
              by_cases hpp : posixNormpath (urlparsePath url) = p
              · rw [← hpp, hnonepath]
                rw [List.find?_cons_of_pos _ (by simp [hpp])]
                simp
              · rw [List.find?_cons_of_neg _ (by simpa using hpp)]
                cases pyDictLookup acc p <;> simp [hpp]
            · intro hacc
              apply hnod
              rw [pyDictKeys, List.map_append]
              refine List.Nodup.append hacc (List.nodup_singleton _) ?_
              intro x hx hy
              simp at hy
              subst hy
              exact pyDictLookup_none_keys acc _ hnonepath hx

/-- C2: in the asset map built by a run of the Asset Extractor, each
canonical path holds exactly one record (the key list is duplicate-free),
whose output filename and content are those derived from the first
record-producing attachment at that path in document order (later
attachments at an already-seen path are skipped, never overwritten); and an
attachment whose mimetype-derived extension is `.htm` or `.xml` never
produces a record. -/
theorem c2_asset_extractor_first_wins (dh : String) (atts : List ExtractItem)
    (fm : PyDict FileEntry) (hok : Parser.buildFileMap dh atts = .ok fm) :
    (∀ p, ((pyDictLookup fm p).map (fun e => (e.filename, e.content)))
        = ((atts.filterMap (candRecord dh)).find? (fun q => q.1 == p)).map Prod.snd)
    ∧ (pyDictKeys fm).Nodup
    ∧ (∀ it : ExtractItem, (match guess_extension it.mimetype with
        | some e => e = ".htm" ∨ e = ".xml"
        | none => False) → candRecord dh it = none) := by
  rw [Parser.buildFileMap] at hok
  obtain ⟨hlook, hnod⟩ := buildFileMap_invariant dh atts [] fm hok
  refine ⟨?_, hnod (by simp [pyDictKeys]), ?_⟩
  · intro p
    have := hlook p
    rwa [show pyDictLookup ([] : PyDict FileEntry) p = none from rfl] at this
  · intro it hext
    rw [candRecord, if_pos ?_]
    revert hext
    cases guess_extension it.mimetype with
    | none => intro hext; cases hext
    | some e => intro hext; simpa using hext

def c1att1 : ExtractItem :=
  ⟨.bytes "IMG1", none, "image/png",
    .leaf [("Content-Type", "image/png"), ("Content-Location", "http://x/a/i.png")]
      (.bytes "IMG1")⟩

def c1att2 : ExtractItem :=
  ⟨.bytes "IMG2", none, "image/png",
    .leaf [("Content-Type", "image/png"), ("Content-Location", "http://x/b/i.png")]
      (.bytes "IMG2")⟩

/-- C1 counterexample: two attachments whose canonical paths differ only in
their directory component (`/a/i.png` vs `/b/i.png`) both receive an
AssetRecord in the same run, and their generated output filenames are
identical (`T_i.png` both): the path → output-filename mapping is not
collision-free. -/
theorem c1_counterexample :
    (Parser.buildFileMap "T_" [c1att1, c1att2]).map
        (fun fm => fm.map (fun kv => (kv.1, kv.2.filename)))
      = .ok [("/a/i.png", "T_i.png"), ("/b/i.png", "T_i.png")]
    ∧ ("/a/i.png" : String) ≠ "/b/i.png" := by
  exact ⟨rfl, by decide⟩

/-- C1 (amended): every record's output filename is the per-run timestamp
prefix concatenated with the basename of its canonical path, so two
records' filenames coincide exactly when the basenames of their canonical
paths coincide: the mapping is injective across distinct basenames, but two
canonical paths differing only in their directory component receive the
same output filename. -/
theorem c1_output_filenames (dh : String) (atts : List ExtractItem)
    (fm : PyDict FileEntry) (p q : String) (ep eq' : FileEntry)
    (hok : Parser.buildFileMap dh atts = .ok fm)
    (hp : pyDictLookup fm p = some ep) (hq : pyDictLookup fm q = some eq') :
    ep.filename = dh ++ posixBasename p ∧ eq'.filename = dh ++ posixBasename q
    ∧ (ep.filename = eq'.filename ↔ posixBasename p = posixBasename q) := by
  have hfn : ∀ (r : String) (er : FileEntry), pyDictLookup fm r = some er →
      er.filename = dh ++ posixBasename r := by
    intro r er her
    have hmain := (c2_asset_extractor_first_wins dh atts fm hok).1 r
    rw [her] at hmain
    cases hfind : (atts.filterMap (candRecord dh)).find? (fun x => x.1 == r) with
    | none => rw [hfind] at hmain; cases hmain
    | some x =>
      rw [hfind] at hmain
      have hxr : x.1 = r := by
        have := List.find?_some hfind
        simpa using this
      have hxmem := List.mem_filterMap.mp (List.mem_of_find?_eq_some hfind)
      obtain ⟨it, _, hcand⟩ := hxmem
      have hx2 : (er.filename, er.content) = x.2 := by simpa using hmain
      have hfst : er.filename = x.2.1 := congrArg Prod.fst hx2
      rw [hfst, candRecord_filename hcand, hxr]
  have hep := hfn p ep hp
  have heq := hfn q eq' hq
  refine ⟨hep, heq, ?_⟩
  rw [hep, heq]
  constructor
  · intro h
    have hd := congrArg String.data h
    rw [String.data_append, String.data_append] at hd
    have := List.append_cancel_left hd
    cases hb1 : posixBasename p
    cases hb2 : posixBasename q
    rw [hb1, hb2] at this
    simp at this
    rw [this]
  · intro h
    rw [h]

theorem c1_witness :
    FileEntry.filename ⟨"T_i.png", "/tmp/tmp0T_i.png", .bytes "IMG1"⟩
        = "T_" ++ posixBasename "/a/i.png"
    ∧ FileEntry.filename ⟨"T_i.png", "/tmp/tmp1T_i.png", .bytes "IMG2"⟩
        = "T_" ++ posixBasename "/b/i.png"
    ∧ (FileEntry.filename ⟨"T_i.png", "/tmp/tmp0T_i.png", .bytes "IMG1"⟩
        = FileEntry.filename ⟨"T_i.png", "/tmp/tmp1T_i.png", .bytes "IMG2"⟩
      ↔ posixBasename "/a/i.png" = posixBasename "/b/i.png") :=
  c1_output_filenames "T_" [c1att1, c1att2]
    [("/a/i.png", ⟨"T_i.png", "/tmp/tmp0T_i.png", .bytes "IMG1"⟩),
     ("/b/i.png", ⟨"T_i.png", "/tmp/tmp1T_i.png", .bytes "IMG2"⟩)]
    "/a/i.png" "/b/i.png" _ _ rfl rfl rfl

theorem c2_witness :
    (∀ p, ((pyDictLookup [("/a/i.png",
          (⟨"T_i.png", "/tmp/tmp0T_i.png", .bytes "IMG1"⟩ : FileEntry)),
        ("/b/i.png", (⟨"T_i.png", "/tmp/tmp1T_i.png", .bytes "IMG2"⟩ : FileEntry))] p).map
          (fun e => (e.filename, e.content)))
        = ((([c1att1, c1att2]).filterMap (candRecord "T_")).find?
            (fun q => q.1 == p)).map Prod.snd)
    ∧ (pyDictKeys [("/a/i.png",
          (⟨"T_i.png", "/tmp/tmp0T_i.png", .bytes "IMG1"⟩ : FileEntry)),
        ("/b/i.png", (⟨"T_i.png", "/tmp/tmp1T_i.png", .bytes "IMG2"⟩ : FileEntry))]).Nodup
    ∧ (∀ it : ExtractItem, (match guess_extension it.mimetype with
        | some e => e = ".htm" ∨ e = ".xml"
        | none => False) → candRecord "T_" it = none) :=
  c2_asset_extractor_first_wins "T_" [c1att1, c1att2] _ rfl

/-- The attribute list of an image node, `none` for anything else. -/
def imgAttrOf : Html → Option (List (String × String))
  | .tag n a _ => if n = "img" then some a else none
  | .text _ => none

/-- The attribute lists of all `img` elements of a document, in document
order (`soup.findAll('img')`). -/
def collectImgs (nodes : List Html) : List (List (String × String)) :=
  (htmlNodesList nodes).filterMap imgAttrOf

def imgsOfNode (h : Html) : List (List (String × String)) :=
  (htmlNodes h).filterMap imgAttrOf

/-- Whether a given image's `src` is present and resolves to a key of the
asset map. -/
def imgResolves (fm : PyDict FileEntry) (root : String)
    (a : List (String × String)) : Bool :=
  match attrsGet a "src" with
  | none => false
  | some src =>
    (pyDictLookup fm (posixNormpath
      (Parser._get_absolute_path_from_relative_path root src))).isSome

/-- The attribute transform the rewrite loop applies to a resolving image
(total companion of `Parser.rewriteImg`; identity on its failure cases). -/
def expectedImgRewrite (fm : PyDict FileEntry) (root : String)
    (a : List (String × String)) : List (String × String) :=
  match attrsGet a "src" with
  | none => a
  | some src =>
    match pyDictLookup fm (posixNormpath
        (Parser._get_absolute_path_from_relative_path root src)) with
    | none => a
    | some e =>
      attrsSet (attrsSet (attrsSet a "src" e.filename) "width" "auto") "height" "auto"


theorem rewriteImg_ok_shape (fm : PyDict FileEntry) (root : String)
    (a : List (String × String)) :
    (∀ a', Parser.rewriteImg fm root a = .ok a' →
      imgResolves fm root a = true ∧ a' = expectedImgRewrite fm root a)
    ∧ (imgResolves fm root a = true → ∃ a', Parser.rewriteImg fm root a = .ok a') := by
  constructor
  · intro a' hok
    rw [Parser.rewriteImg] at hok
    cases hsrc : attrsGet a "src" with
    | none =>
      simp only [hsrc] at hok
      cases hok
    | some src =>
      simp only [hsrc] at hok
      cases hlk : pyDictLookup fm (posixNormpath
          (Parser._get_absolute_path_from_relative_path root src)) with
      | none =>
        simp only [hlk] at hok
        cases hok
      | some e =>
        simp only [hlk, Except.ok.injEq] at hok
        constructor
        · simp only [imgResolves, hsrc, hlk, Option.isSome_some]
        · simp only [expectedImgRewrite, hsrc, hlk]
          exact hok.symm
  · intro hres
    simp only [imgResolves] at hres
    rw [Parser.rewriteImg]
    cases hsrc : attrsGet a "src" with
    | none =>
      simp only [hsrc] at hres
      cases hres
    | some src =>
      simp only [hsrc] at hres
      cases hlk : pyDictLookup fm (posixNormpath
          (Parser._get_absolute_path_from_relative_path root src)) with
      | none =>
        simp only [hlk, Option.isSome_none] at hres
        cases hres
      | some e =>
        simp only [hlk]
        exact ⟨_, rfl⟩

theorem rewrite_aux (fm : PyDict FileEntry) (root : String) (n : Nat) :
    (∀ h : Html, sizeOf h ≤ n →
      ((∀ a ∈ imgsOfNode h, imgResolves fm root a = true) →
        ∃ h', Parser.rewriteNode fm root h = .ok h'
          ∧ imgsOfNode h' = (imgsOfNode h).map (expectedImgRewrite fm root))
      ∧ (∀ h', Parser.rewriteNode fm root h = .ok h' →
          ∀ a ∈ imgsOfNode h, imgResolves fm root a = true))
    ∧ (∀ l : List Html, sizeOf l ≤ n →
      ((∀ a ∈ collectImgs l, imgResolves fm root a = true) →
        ∃ l', Parser.rewriteList fm root l = .ok l'
          ∧ collectImgs l' = (collectImgs l).map (expectedImgRewrite fm root))
      ∧ (∀ l', Parser.rewriteList fm root l = .ok l' →
          ∀ a ∈ collectImgs l, imgResolves fm root a = true)) := by
  induction n using Nat.strong_induction_on with
  | _ n ih =>
    constructor
    · intro h hsz
      cases h with
      | text s =>
        constructor
        · intro _
          exact ⟨.text s, rfl, rfl⟩
        · intro h' _ a ha
          simp [imgsOfNode, htmlNodes, imgAttrOf] at ha
      | tag nm a cs =>
        have hszcs : sizeOf cs < n := by
          have : sizeOf (Html.tag nm a cs) = 1 + sizeOf nm + sizeOf a + sizeOf cs := by simp
          omega
        have himgs : imgsOfNode (.tag nm a cs)
            = (if nm = "img" then [a] else []) ++ collectImgs cs := by
          rw [imgsOfNode, htmlNodes, List.filterMap_cons]
          by_cases hni : nm = "img" <;> simp [imgAttrOf, hni, collectImgs]
        constructor
        · intro hall
          rw [himgs] at hall
          have hacs : ∀ x ∈ collectImgs cs, imgResolves fm root x = true := by
            intro x hx
            exact hall x (List.mem_append.mpr (Or.inr hx))
          obtain ⟨cs', hcs', hcoll⟩ := ((ih (sizeOf cs) hszcs).2 cs (le_refl _)).1 hacs
          by_cases hni : nm = "img"
          · have hares : imgResolves fm root a = true := by
              apply hall
              rw [if_pos hni]
              exact List.mem_append.mpr (Or.inl (by simp))
            obtain ⟨a', ha'⟩ := (rewriteImg_ok_shape fm root a).2 hares
            have ha'val := ((rewriteImg_ok_shape fm root a).1 a' ha').2
            refine ⟨.tag nm a' cs', ?_, ?_⟩
            · rw [Parser.rewriteNode, if_pos hni, ha', hcs']
              rfl
            · have himgs' : imgsOfNode (.tag nm a' cs')
                  = (if nm = "img" then [a'] else []) ++ collectImgs cs' := by
                rw [imgsOfNode, htmlNodes, List.filterMap_cons]
                by_cases hni2 : nm = "img" <;> simp [imgAttrOf, hni2, collectImgs]
              rw [himgs', himgs, if_pos hni, if_pos hni, List.map_append, hcoll, ha'val]
              rfl
          · refine ⟨.tag nm a cs', ?_, ?_⟩
            · rw [Parser.rewriteNode, if_neg hni, hcs']
              rfl
            · have himgs' : imgsOfNode (.tag nm a cs')
                  = (if nm = "img" then [a] else []) ++ collectImgs cs' := by
                rw [imgsOfNode, htmlNodes, List.filterMap_cons]
                by_cases hni2 : nm = "img" <;> simp [imgAttrOf, hni2, collectImgs]
              rw [himgs', himgs, if_neg hni, List.map_append, hcoll]
              rfl
        · intro h' hok x hx
          rw [himgs] at hx
          rw [Parser.rewriteNode] at hok
          by_cases hni : nm = "img"
          · rw [if_pos hni] at hok
            simp only [bind, Except.bind] at hok
            split at hok
            · cases hok
            · rename_i a' hattr
              split at hok
              · cases hok
              · rename_i cs' hcs
                rcases List.mem_append.mp hx with hmem | hmem
                · rw [if_pos hni] at hmem
                  have hxa : x = a := by simpa using hmem
                  rw [hxa]
                  exact ((rewriteImg_ok_shape fm root a).1 a' hattr).1
                · exact ((ih (sizeOf cs) hszcs).2 cs (le_refl _)).2 cs' hcs x hmem
          · rw [if_neg hni] at hok
            simp only [bind, Except.bind] at hok
            split at hok
            · cases hok
            · rename_i cs' hcs
              rcases List.mem_append.mp hx with hmem | hmem
              · rw [if_neg hni] at hmem
                simp at hmem
              · exact ((ih (sizeOf cs) hszcs).2 cs (le_refl _)).2 cs' hcs x hmem
    · intro l hsz
      cases l with
      | nil =>
        constructor
        · intro _
          exact ⟨[], rfl, rfl⟩
        · intro l' _ a ha
          simp [collectImgs, htmlNodesList] at ha
      | cons h t =>
        have hszh : sizeOf h < n := by
          have : sizeOf (h :: t) = 1 + sizeOf h + sizeOf t := by simp
          omega
        have hszt : sizeOf t < n := by
          have h1 : sizeOf (h :: t) = 1 + sizeOf h + sizeOf t := by simp
          have h2 : 0 < sizeOf h := by cases h <;> simp
          omega
        have hcoll : collectImgs (h :: t) = imgsOfNode h ++ collectImgs t := by
          rw [collectImgs, htmlNodesList, List.filterMap_append]
          rfl
        constructor
        · intro hall
          rw [hcoll] at hall
          obtain ⟨h', hh', hhimgs⟩ := ((ih (sizeOf h) hszh).1 h (le_refl _)).1
            (fun x hx => hall x (List.mem_append.mpr (Or.inl hx)))
          obtain ⟨t', ht', htimgs⟩ := ((ih (sizeOf t) hszt).2 t (le_refl _)).1
            (fun x hx => hall x (List.mem_append.mpr (Or.inr hx)))
          refine ⟨h' :: t', ?_, ?_⟩
          · rw [Parser.rewriteList, hh', ht']
            rfl
          · have hcoll' : collectImgs (h' :: t') = imgsOfNode h' ++ collectImgs t' := by
              rw [collectImgs, htmlNodesList, List.filterMap_append]
              rfl
            rw [hcoll', hcoll, List.map_append, hhimgs, htimgs]
        · intro l' hok x hx
          rw [hcoll] at hx
          rw [Parser.rewriteList] at hok
          simp only [bind, Except.bind] at hok
          split at hok
          · cases hok
          · rename_i h' hh
            split at hok
            · cases hok
            · rename_i t' ht
              rcases List.mem_append.mp hx with hmem | hmem
              · exact ((ih (sizeOf h) hszh).1 h (le_refl _)).2 h' hh x hmem
              · exact ((ih (sizeOf t) hszt).2 t (le_refl _)).2 t' ht x hmem

/-- C6: during the image-rewrite loop of the HTML Transform, (1) if every
image's `src`, joined to the document root and normalized, is a key of the
asset map, the rewrite succeeds and transforms exactly the images, each by
`expectedImgRewrite`; (2) on a map hit, `expectedImgRewrite` replaces `src`
by the record's output filename and sets `width` and `height` to `"auto"`;
(3) if any image's resolved canonical path is absent from the map, the
conversion raises an exception (the whole rewrite returns an error) rather
than leaving the reference unrewritten. -/
theorem c6_image_rewrite_and_crash_on_miss (fm : PyDict FileEntry) (root : String)
    (nodes : List Html) :
    ((∀ a ∈ collectImgs nodes, imgResolves fm root a = true) →
      ∃ nodes', Parser.rewriteList fm root nodes = .ok nodes'
        ∧ collectImgs nodes' = (collectImgs nodes).map (expectedImgRewrite fm root))
    ∧ (∀ (a : List (String × String)) (src : String) (e : FileEntry),
        attrsGet a "src" = some src →
        pyDictLookup fm (posixNormpath
          (Parser._get_absolute_path_from_relative_path root src)) = some e →
        expectedImgRewrite fm root a
          = attrsSet (attrsSet (attrsSet a "src" e.filename) "width" "auto") "height" "auto")
    ∧ (∀ a ∈ collectImgs nodes, ∀ src : String,
        attrsGet a "src" = some src →
        pyDictLookup fm (posixNormpath
          (Parser._get_absolute_path_from_relative_path root src)) = none →
        ∃ err, Parser.rewriteList fm root nodes = .error err) := by
  refine ⟨?_, ?_, ?_⟩
  · intro hall
    exact ((rewrite_aux fm root (sizeOf nodes)).2 nodes (le_refl _)).1 hall
  · intro a src e hsrc hlk
    simp only [expectedImgRewrite, hsrc, hlk]
  · intro a ha src hsrc hlk
    cases hres : Parser.rewriteList fm root nodes with
    | error err => exact ⟨err, rfl⟩
    | ok l' =>
      exfalso
      have hr := ((rewrite_aux fm root (sizeOf nodes)).2 nodes (le_refl _)).2 l' hres a ha
      simp only [imgResolves, hsrc, hlk, Option.isSome_none] at hr
      cases hr

def c6fm : PyDict FileEntry := [("/a/i.png", ⟨"T_i.png", "/tmp/tmpA", .bytes "i"⟩)]

def c6nodes : List Html :=
  [.tag "div" [] [.tag "img" [("src", "a/i.png"), ("alt", "x")] []], .text "hi"]

def c6nodesBad : List Html := [.tag "img" [("src", "a/missing.png")] []]

theorem c6_witness :
    ((∀ a ∈ collectImgs c6nodes, imgResolves c6fm "/" a = true)
      ∧ ∃ nodes', Parser.rewriteList c6fm "/" c6nodes = .ok nodes'
          ∧ collectImgs nodes' = (collectImgs c6nodes).map (expectedImgRewrite c6fm "/"))
    ∧ (attrsGet [("src", "a/i.png"), ("alt", "x")] "src" = some "a/i.png"
      ∧ pyDictLookup c6fm (posixNormpath
          (Parser._get_absolute_path_from_relative_path "/" "a/i.png"))
          = some ⟨"T_i.png", "/tmp/tmpA", .bytes "i"⟩
      ∧ expectedImgRewrite c6fm "/" [("src", "a/i.png"), ("alt", "x")]
          = [("src", "T_i.png"), ("alt", "x"), ("width", "auto"), ("height", "auto")])
    ∧ ([("src", "a/missing.png")] ∈ collectImgs c6nodesBad
      ∧ attrsGet [("src", "a/missing.png")] "src" = some "a/missing.png"
      ∧ pyDictLookup c6fm (posixNormpath
          (Parser._get_absolute_path_from_relative_path "/" "a/missing.png")) = none
      ∧ ∃ err, Parser.rewriteList c6fm "/" c6nodesBad = .error err) := by
  have hall : ∀ a ∈ collectImgs c6nodes, imgResolves c6fm "/" a = true := by decide
  refine ⟨⟨hall, (c6_image_rewrite_and_crash_on_miss c6fm "/" c6nodes).1 hall⟩,
    ⟨rfl, rfl, ?_⟩, ⟨by decide, rfl, rfl, ?_⟩⟩
  · rw [(c6_image_rewrite_and_crash_on_miss c6fm "/" c6nodes).2.1
      [("src", "a/i.png"), ("alt", "x")] "a/i.png" ⟨"T_i.png", "/tmp/tmpA", .bytes "i"⟩ rfl rfl]
    rfl
  · exact (c6_image_rewrite_and_crash_on_miss c6fm "/" c6nodesBad).2.2
      [("src", "a/missing.png")] (by decide) "a/missing.png" rfl rfl

theorem stringAppendAssoc (a b c : String) : a ++ b ++ c = a ++ (b ++ c) := by
  cases a
  cases b
  cases c
  show String.mk _ = String.mk _
  simp [String.append]

theorem stringFoldlAppend (l : List String) (x a : String) :
    l.foldl (· ++ ·) (x ++ a) = x ++ l.foldl (· ++ ·) a := by
  induction l generalizing a with
  | nil => rfl
  | cons h t ih =>
    rw [List.foldl_cons, List.foldl_cons, stringAppendAssoc, ih]

theorem stringJoinCons (a : String) (l : List String) :
    String.join (a :: l) = a ++ String.join l := by
  show l.foldl (· ++ ·) ("" ++ a) = a ++ l.foldl (· ++ ·) ""
  have h : ("" : String) ++ a = a ++ "" := by
    rw [stringAppendEmpty]
    rfl
  rw [h, stringFoldlAppend]

theorem exceptMapOk {ε α β : Type} (f : α → β) (a : α) :
    (Except.map f (Except.ok a) : Except ε β) = .ok (f a) := rfl

theorem exceptMapErr {ε α β : Type} (f : α → β) (e : ε) :
    (Except.map f (Except.error e) : Except ε β) = .error e := rfl

/-- The tab-separated line the table loop emits for a row with at least two
direct child tags (`""` as a don't-care value otherwise). -/
def expectedRowLine (row : Html) : String :=
  match directChildTags row with
  | t0 :: t1 :: _ =>
    Parser._strip_newlines (renderContents t0) ++ "\t" ++
      Parser._strip_newlines (renderContents t1) ++ "\n"
  | _ => ""

theorem processRow_cases (row : Html) :
    (2 ≤ (directChildTags row).length →
      Parser.processRow row = .ok (expectedRowLine row))
    ∧ ((directChildTags row).length < 2 →
      Parser.processRow row = .error .indexError) := by
  constructor
  · intro hlen
    cases hd : directChildTags row with
    | nil => rw [hd] at hlen; simp at hlen
    | cons t0 rest =>
      cases rest with
      | nil => rw [hd] at hlen; simp at hlen
      | cons t1 rest' =>
        rw [Parser.processRow, expectedRowLine, hd]
        rfl
  · intro hlen
    cases hd : directChildTags row with
    | nil =>
      rw [Parser.processRow, hd]
      rfl
    | cons t0 rest =>
      cases rest with
      | nil =>
        rw [Parser.processRow, hd]
        rfl
      | cons t1 rest' =>
        rw [hd] at hlen
        simp at hlen
        omega

theorem processRows_aux (rows : List Html) :
    ∀ acc : String,
    ((∀ r ∈ rows, 2 ≤ (directChildTags r).length) →
      List.foldlM (fun acc r => (Parser.processRow r).map (acc ++ ·)) acc rows
        = .ok (acc ++ String.join (rows.map expectedRowLine)))
    ∧ ((∃ r ∈ rows, (directChildTags r).length < 2) →
      List.foldlM (fun acc r => (Parser.processRow r).map (acc ++ ·)) acc rows
        = .error .indexError) := by
  induction rows with
  | nil =>
    intro acc
    constructor
    · intro _
      exact congrArg Except.ok (stringAppendEmpty acc).symm
    · rintro ⟨r, hr, _⟩
      simp at hr
  | cons r rs ih =>
    intro acc
    constructor
    · intro hall
      have hr := (processRow_cases r).1 (hall r (by simp))
      rw [List.foldlM_cons, hr, exceptMapOk, exceptBindOk]
      rw [((ih (acc ++ expectedRowLine r)).1 (fun x hx => hall x (by simp [hx])))]
      rw [List.map_cons, stringJoinCons, ← stringAppendAssoc]
    · rintro ⟨x, hx, hxbad⟩
      rcases List.mem_cons.mp hx with hxr | hxrs
      · rw [hxr] at hxbad
        rw [List.foldlM_cons, (processRow_cases r).2 hxbad, exceptMapErr, exceptBindErr]
      · by_cases hgood : 2 ≤ (directChildTags r).length
        · rw [List.foldlM_cons, (processRow_cases r).1 hgood, exceptMapOk, exceptBindOk]
          exact (ih _).2 ⟨x, hxrs, hxbad⟩
        · rw [List.foldlM_cons, (processRow_cases r).2 (by omega), exceptMapErr, exceptBindErr]

/-- C10: in the table loop of `Parser.run`, a row of the first table with
fewer than two direct child elements makes the whole conversion abort with
an `IndexError` (fail, not skip); when every row has at least two direct
children, the run succeeds and each row contributes one tab-separated line
built from the first two direct child elements of any tag (extra children
are ignored), with their rendered contents stripped of line feeds and
carriage returns. -/
theorem c10_short_row_aborts (dateHash root : String) (msg : EMessage)
    (soup : List Html) (atts : List ExtractItem) (fm : PyDict FileEntry)
    (soup' : List Html) (table : Html)
    (hatts : Attachment.extract false msg = .ok atts)
    (hfm : Parser.buildFileMap dateHash atts = .ok fm)
    (hrw : Parser.rewriteList fm root soup = .ok soup')
    (htab : findFirstTable soup' = some table) :
    ((∃ r ∈ tableRows table, (directChildTags r).length < 2) →
      Parser.run dateHash root msg soup = .error .indexError)
    ∧ ((∀ r ∈ tableRows table, 2 ≤ (directChildTags r).length) →
      Parser.run dateHash root msg soup
        = .ok (String.join ((tableRows table).map expectedRowLine)))
    ∧ (∀ r t0 t1 rest, directChildTags r = t0 :: t1 :: rest →
        Parser.processRow r = .ok (Parser._strip_newlines (renderContents t0) ++ "\t" ++
          Parser._strip_newlines (renderContents t1) ++ "\n")) := by
  have hrun : Parser.run dateHash root msg soup = Parser.processRows (tableRows table) := by
    rw [Parser.run]
    rw [hatts, exceptBindOk, hfm, exceptBindOk, hrw, exceptBindOk, htab]
  refine ⟨?_, ?_, ?_⟩
  · intro hbad
    rw [hrun, Parser.processRows, (processRows_aux (tableRows table) "").2 hbad]
  · intro hall
    rw [hrun, Parser.processRows, (processRows_aux (tableRows table) "").1 hall]
    have hpre : ("" : String) ++ String.join ((tableRows table).map expectedRowLine)
        = String.join ((tableRows table).map expectedRowLine) := rfl
    rw [hpre]
  · intro r t0 t1 rest hd
    have h2 : 2 ≤ (directChildTags r).length := by
      rw [hd]
      simp
    rw [(processRow_cases r).1 h2, expectedRowLine, hd]

def c10rowGood : Html :=
  .tag "tr" [] [.tag "td" [] [.text "a\n1"], .tag "td" [] [.text "b\x0d2"],
    .tag "td" [] [.text "ignored"]]

def c10rowBad : Html := .tag "tr" [] [.tag "td" [] [.text "only"]]

def c10tableGood : Html := .tag "table" [] [c10rowGood]

def c10tableBad : Html := .tag "table" [] [c10rowGood, c10rowBad]

def c10msg : EMessage := .leaf [] (.bytes "")

theorem c10_witness :
    (Attachment.extract false c10msg = .ok []
      ∧ Parser.buildFileMap "T_" [] = .ok []
      ∧ Parser.rewriteList [] "/" [c10tableBad] = .ok [c10tableBad]
      ∧ findFirstTable [c10tableBad] = some c10tableBad
      ∧ (∃ r ∈ tableRows c10tableBad, (directChildTags r).length < 2)
      ∧ Parser.run "T_" "/" c10msg [c10tableBad] = .error .indexError)
    ∧ (Parser.rewriteList [] "/" [c10tableGood] = .ok [c10tableGood]
      ∧ findFirstTable [c10tableGood] = some c10tableGood
      ∧ (∀ r ∈ tableRows c10tableGood, 2 ≤ (directChildTags r).length)
      ∧ Parser.run "T_" "/" c10msg [c10tableGood] = .ok "a1\tb2\n") := by
  have hatts : Attachment.extract false c10msg = .ok [] := by
    rw [c10msg, Attachment.extract]
  have hrows : tableRows c10tableBad = [c10rowGood, c10rowBad] := rfl
  have hbad : ∃ r ∈ tableRows c10tableBad, (directChildTags r).length < 2 := by
    rw [hrows]
    exact ⟨c10rowBad, List.mem_cons_of_mem _ (List.mem_cons_self _ _), by decide⟩
  refine ⟨⟨hatts, rfl, rfl, rfl, hbad, ?_⟩, rfl, rfl, ?_, ?_⟩
  · exact (c10_short_row_aborts "T_" "/" c10msg [c10tableBad] [] [] [c10tableBad]
      c10tableBad hatts rfl rfl rfl).1 hbad
  · intro r hr
    have : tableRows c10tableGood = [c10rowGood] := rfl
    rw [this] at hr
    rcases List.mem_cons.mp hr with h | h
    · rw [h]
      decide
    · simp at h
  · have h := (c10_short_row_aborts "T_" "/" c10msg [c10tableGood] [] [] [c10tableGood]
      c10tableGood hatts rfl rfl rfl).2.1 ?_
    · rw [h]
      rfl
    · intro r hr
      have heq : tableRows c10tableGood = [c10rowGood] := rfl
      rw [heq] at hr
      rcases List.mem_cons.mp hr with h | h
      · rw [h]
        decide
      · simp at h

theorem exceptBindOkInv {ε α β : Type} (x : Except ε α) (f : α → Except ε β)
    (P : β → Prop) (hf : ∀ a b, f a = .ok b → P b) :
    ∀ b, (x >>= f) = .ok b → P b := by
  cases x with
  | error e =>
    intro b h
    rw [exceptBindErr] at h
    cases h
  | ok a =>
    intro b h
    rw [exceptBindOk] at h
    exact hf a b h

/-- C9: for every message from which the metadata has been extracted via
`set_message`, the `addresses` property does NOT return the union of
sender, reply-to and receiver addresses: `set_message` stores the set
computed by `_receivers` in the `receivers` attribute, so the property's
`self.receivers()` calls a non-callable and every evaluation of
`addresses` raises `TypeError`. -/
theorem c9_addresses_raises (names0 : PyDict (Option String)) (m : EMessage)
    (st : MetaDataState) (hok : MetaData.set_message names0 m = .ok st) :
    MetaData.addresses st = .error .typeError
    ∧ ∃ elems, st.receivers = PyAttrVal.pySet elems := by
  constructor
  · simp only [MetaData.addresses, pyCallNoArgs, bind, Except.bind]
  · rw [MetaData.set_message] at hok
    refine exceptBindOkInv _ _ (fun s => ∃ elems, s.receivers = PyAttrVal.pySet elems) ?_ st hok
    rintro ⟨n1, toA⟩ st1 h1
    refine exceptBindOkInv _ _ (fun s => ∃ elems, s.receivers = PyAttrVal.pySet elems) ?_ st1 h1
    rintro ⟨n2, senders⟩ st2 h2
    refine exceptBindOkInv _ _ (fun s => ∃ elems, s.receivers = PyAttrVal.pySet elems) ?_ st2 h2
    rintro ⟨n3, replyTos⟩ st3 h3
    refine exceptBindOkInv _ _ (fun s => ∃ elems, s.receivers = PyAttrVal.pySet elems) ?_ st3 h3
    rintro ⟨n4, cc⟩ st4 h4
    refine exceptBindOkInv _ _ (fun s => ∃ elems, s.receivers = PyAttrVal.pySet elems) ?_ st4 h4
    rintro ⟨n5, bcc⟩ st5 h5
    refine exceptBindOkInv _ _ (fun s => ∃ elems, s.receivers = PyAttrVal.pySet elems) ?_ st5 h5
    rintro subj st6 h6
    injection h6 with h
    rw [← h]
    exact ⟨_, rfl⟩

def c9state : MetaDataState :=
  ⟨[("a@x.com", none)], none, [], some "a@x.com", none, [], [], none, "",
    "text/plain", .pySet []⟩

theorem c9_witness :
    MetaData.set_message [] (.leaf [("From", "a@x.com")] (.bytes "")) = .ok c9state
    ∧ MetaData.addresses c9state = .error .typeError
    ∧ ∃ elems, c9state.receivers = PyAttrVal.pySet elems :=
  ⟨rfl, c9_addresses_raises [] (.leaf [("From", "a@x.com")] (.bytes "")) c9state rfl⟩
